import Mathlib

/-!
CHIP-8 reference virtual machine.

A shallow embedding of `Emulator/Chip8ReferenceVm.cpp` (class `Chip8ReferenceVm`)
and of the pixel decoding of `ConsoleUI/ConsoleUI.cpp`.

Conventions of the embedding:

* a `std::byte`, a `uint_fast8_t` and a register are natural numbers meant to stay
  below 256; every `static_cast<std::byte>` and every `std::byte` left shift is an
  explicit `% 256`;
* `LongValue` (`uint_fast16_t`) is an unsigned machine word of `LONG_BITS` bits,
  subtraction on it wraps modulo `2 ^ LONG_BITS`;
* the arrays `ram` (4096 cells), `v` (16 cells), `display` (256 cells) and the bitset
  `keys` (16 bits) are total functions on `Nat` of which only the cells inside the
  array are meaningful; an access the C++ code would make outside the array is a
  `Fault`, never a read of the function outside its range;
* the iterators `pc` and `i` are offsets from `ram.begin()`;
* the uniform byte drawn by `getRandomByte` is an argument of `step`.
-/

namespace Chip8

/-- Engine life-cycle (`enum class State`). -/
inductive State where
  | Loading
  | Running
  | Blocked
  | Halted
deriving DecidableEq, Repr

/-- The two ways the C++ code can leave defined behaviour. -/
inductive Fault where
  /-- The exception `std::out_of_range` thrown by `std::array::at` or by
  `std::bitset::test`, `set`, `reset`. -/
  | outOfRange
  /-- An iterator into `ram` dereferenced outside `[begin, end)`. -/
  | badAccess
deriving DecidableEq, Repr

/-- The `struct Instruction` of the header: the two fetched bytes. -/
structure Instruction where
  hi : Nat
  lo : Nat
deriving DecidableEq, Repr

/-- Data members of `class Chip8ReferenceVm` that the instruction set touches. -/
structure Chip8ReferenceVm where
  ram : Nat → Nat
  pc : Nat
  call_stack : List Nat
  i : Nat
  v : Nat → Nat
  delay : Nat
  sound : Nat
  frame_limit : Nat
  keys : Nat → Bool
  display : Nat → Nat
  state : State
  keypress_target_register : Nat

/-- Size of `RAM = std::array<std::byte, 4096>`. -/
def RAM_SIZE : Nat := 4096

/-- The constant `DISPLAY_WIDTH`. -/
def DISPLAY_WIDTH : Nat := 64

/-- The constant `DISPLAY_WIDTH_UNITS = DISPLAY_WIDTH / 8`. -/
def DISPLAY_WIDTH_UNITS : Nat := DISPLAY_WIDTH / 8

/-- The constant `DISPLAY_HEIGHT`. -/
def DISPLAY_HEIGHT : Nat := 32

/-- The constant `NO_KEY = -1` as a `uint_fast8_t`. -/
def NO_KEY : Nat := 255

/-- Width in bits of `LongValue = uint_fast16_t` (64 on x86-64 glibc, 32 with MSVC;
at least 16 everywhere). Nothing proved below depends on which of these it is. -/
def LONG_BITS : Nat := 64

/-- Unsigned subtraction `a - b` on `LongValue`, wrapping modulo `2 ^ LONG_BITS`. -/
def subLong (a b : Nat) : Nat := (a + 2 ^ LONG_BITS - b % 2 ^ LONG_BITS) % 2 ^ LONG_BITS

/-- The helper `lo_nybble`: `byte & 0x0F`. -/
def lo_nybble (byte : Nat) : Nat := byte &&& 0x0F

/-- The helper `hi_nybble`: `byte >> 4`. -/
def hi_nybble (byte : Nat) : Nat := byte >>> 4

/-- The helper `getShortValueLo`. -/
def getShortValueLo (byte : Nat) : Nat := lo_nybble byte

/-- The helper `getShortValueHi`. -/
def getShortValueHi (byte : Nat) : Nat := hi_nybble byte

/-- The helper `getValue`. -/
def getValue (byte : Nat) : Nat := byte

/-- The helper `getLongValue`: `0xFFF & (lo_nybble(hi) << 8 | lo)`. -/
def getLongValue (byte_hi byte_lo : Nat) : Nat :=
  0xFFF &&& ((lo_nybble byte_hi <<< 8) ||| byte_lo)

namespace Chip8ReferenceVm

/-- The accessor `isRunning`. -/
def isRunning (s : Chip8ReferenceVm) : Bool := s.state == State.Running

/-- The accessor `isLive`. -/
def isLive (s : Chip8ReferenceVm) : Bool := s.state != State.Halted

/-- The method `getInstruction`: fetch up to two bytes at `pc`, halting when the end
of memory is met. A `pc` beyond `ram.cend()` compares unequal to it and is
dereferenced, which is a fault. -/
def getInstruction (s : Chip8ReferenceVm) : Except Fault (Instruction × Chip8ReferenceVm) :=
  if RAM_SIZE < s.pc then Except.error Fault.badAccess
  else
    let hi := if s.pc ≠ RAM_SIZE then s.ram s.pc else 0
    let s1 := if s.pc ≠ RAM_SIZE then { s with pc := s.pc + 1 } else s
    if s1.pc ≠ RAM_SIZE then
      Except.ok ({ hi := hi, lo := s1.ram s1.pc }, { s1 with pc := s1.pc + 1 })
    else
      Except.ok ({ hi := 0, lo := 0 }, { s1 with state := State.Halted })

/-- The method `skip`: a second fetch whose result is dropped. -/
def skip (s : Chip8ReferenceVm) : Except Fault Chip8ReferenceVm :=
  match getInstruction s with
  | Except.error e => Except.error e
  | Except.ok (_, s1) => Except.ok s1

/-- The method `jump`. -/
def jump (s : Chip8ReferenceVm) (target : Nat) : Chip8ReferenceVm :=
  { s with pc := target }

/-- The method `call`: push the (already advanced) program counter, then jump. -/
def call (s : Chip8ReferenceVm) (target : Nat) : Chip8ReferenceVm :=
  jump { s with call_stack := s.pc :: s.call_stack } target

/-- The method `doReturn`: nothing on an empty stack, else pop into `pc`. -/
def doReturn (s : Chip8ReferenceVm) : Chip8ReferenceVm :=
  match s.call_stack with
  | [] => s
  | top :: rest => { s with pc := top, call_stack := rest }

/-- The method `setAddressRegister(LongValue)`. -/
def setAddressRegister (s : Chip8ReferenceVm) (target : Nat) : Chip8ReferenceVm :=
  { s with i := target }

/-- The method `incrementAddressRegister`: `i += offset`, no reduction. -/
def incrementAddressRegister (s : Chip8ReferenceVm) (offset : Nat) : Chip8ReferenceVm :=
  { s with i := s.i + offset }

/-- The method `isKeyPressed`: `keys.test(x)` throws for `x >= 16`. -/
def isKeyPressed (s : Chip8ReferenceVm) (x : Nat) : Except Fault Bool :=
  if x < 16 then Except.ok (s.keys x) else Except.error Fault.outOfRange

/-- One iteration of the loop of `drawSprite`, on sprite byte `sprite_data` at
display row `display_row`; `display_col` is the byte column and `subpixels` the
bit offset inside it. -/
def drawSpriteLine (display_col subpixels display_row sprite_data : Nat)
    (s : Chip8ReferenceVm) : Chip8ReferenceVm :=
  let line0 := sprite_data >>> subpixels
  let line1 := (sprite_data <<< (8 - subpixels)) % 256
  let display_index := (display_row * DISPLAY_WIDTH_UNITS + display_col) % 256
  let d1 := Function.update s.display display_index (s.display display_index ^^^ line0)
  let v1 := Function.update s.v 0xF
    (s.v 0xF ||| (if d1 display_index ^^^ line0 ≠ 0 then 1 else 0))
  let display_index2 :=
    (display_row * DISPLAY_WIDTH_UNITS + (display_col + 1) % DISPLAY_WIDTH_UNITS) % 256
  let d2 := Function.update d1 display_index2 (d1 display_index2 ^^^ line1)
  let v2 := Function.update v1 0xF
    (v1 0xF ||| (if d2 display_index2 ^^^ line0 ≠ 0 then 1 else 0))
  { s with display := d2, v := v2 }

/-- The loop of `drawSprite` over the sprite bytes, threading `display_row`. -/
def drawSpriteLines (display_col subpixels : Nat) :
    List Nat → Nat → Chip8ReferenceVm → Chip8ReferenceVm
  | [], _, s => s
  | sprite_data :: rest, display_row, s =>
    drawSpriteLines display_col subpixels rest ((display_row + 1) % DISPLAY_HEIGHT)
      (drawSpriteLine display_col subpixels display_row sprite_data s)

/-- The bytes of `std::span{ i, lines }`. The loop never writes to `ram`, so they
are the bytes each iteration reads. -/
def spriteData (s : Chip8ReferenceVm) (lines : Nat) : List Nat :=
  (List.range lines).map (fun k => s.ram (s.i + k))

/-- The method `drawSprite`. Reading a sprite byte at or past `ram.end()` is a
fault. -/
def drawSprite (s : Chip8ReferenceVm) (x y lines : Nat) : Except Fault Chip8ReferenceVm :=
  let s0 := { s with v := Function.update s.v 0xF 0 }
  let display_col := x % DISPLAY_WIDTH
  let display_row := y % DISPLAY_HEIGHT
  let subpixels := display_col % 8
  let display_col := display_col / 8
  if lines ≠ 0 ∧ RAM_SIZE < s.i + lines then Except.error Fault.badAccess
  else Except.ok (drawSpriteLines display_col subpixels (spriteData s0 lines) display_row s0)

/-- The algorithm `std::copy` of `n` cells from `src` at offset `srcOff` to `dst` at
offset `dstOff` (the two ranges lie in different arrays wherever it is used). -/
def copyCells (src dst : Nat → Nat) (srcOff dstOff : Nat) : Nat → (Nat → Nat)
  | 0 => dst
  | n + 1 => Function.update (copyCells src dst srcOff dstOff n) (dstOff + n) (src (srcOff + n))

/-- Family `8XY?` of the switch of `step`: register to register operations. -/
def executeAlu (instruction : Instruction) (s : Chip8ReferenceVm) : Chip8ReferenceVm :=
  let x := getShortValueLo instruction.hi
  let y := getShortValueHi instruction.lo
  let op := lo_nybble instruction.lo
  if op = 0x0 then { s with v := Function.update s.v x (s.v y) }
  else if op = 0x1 then { s with v := Function.update s.v x (s.v x ||| s.v y) }
  else if op = 0x2 then { s with v := Function.update s.v x (s.v x &&& s.v y) }
  else if op = 0x3 then { s with v := Function.update s.v x (s.v x ^^^ s.v y) }
  else if op = 0x4 then
    let wide_val := s.v x + s.v y
    let v1 := Function.update s.v x (wide_val % 256)
    { s with v := Function.update v1 0xF ((wide_val >>> 8) % 256) }
  else if op = 0x5 then
    let wide_val := subLong (0x100 &&& s.v x) (s.v y)
    let v1 := Function.update s.v x (wide_val % 256)
    { s with v := Function.update v1 0xF ((wide_val >>> 8) % 256) }
  else if op = 0x6 then
    let val := s.v y
    let v1 := Function.update s.v x (val >>> 1)
    { s with v := Function.update v1 0xF (val &&& 0x1) }
  else if op = 0x7 then
    let wide_val := subLong (0x100 &&& s.v y) (s.v x)
    let v1 := Function.update s.v x (wide_val % 256)
    { s with v := Function.update v1 0xF ((wide_val >>> 8) % 256) }
  else if op = 0xE then
    let wide_val := s.v y <<< 1
    let v1 := Function.update s.v x (wide_val % 256)
    { s with v := Function.update v1 0xF ((wide_val >>> 8) % 256) }
  else s

/-- Family `EX??` of the switch of `step`: key tests on the value of `VX`. -/
def executeKey (instruction : Instruction) (s : Chip8ReferenceVm) :
    Except Fault Chip8ReferenceVm :=
  let x := getValue (s.v (getShortValueLo instruction.hi))
  if instruction.lo = 0x9E then
    match isKeyPressed s x with
    | Except.error e => Except.error e
    | Except.ok pressed => if pressed then skip s else Except.ok s
  else if instruction.lo = 0xA1 then
    match isKeyPressed s x with
    | Except.error e => Except.error e
    | Except.ok pressed => if !pressed then skip s else Except.ok s
  else Except.ok s

/-- Family `FX??` of the switch of `step`. -/
def executeMisc (instruction : Instruction) (s : Chip8ReferenceVm) :
    Except Fault Chip8ReferenceVm :=
  let x := getShortValueLo instruction.hi
  if instruction.lo = 0x07 then
    Except.ok { s with v := Function.update s.v x (s.delay % 256) }
  else if instruction.lo = 0x0A then
    Except.ok { s with keypress_target_register := x, state := State.Blocked }
  else if instruction.lo = 0x15 then Except.ok { s with delay := s.v x }
  else if instruction.lo = 0x18 then Except.ok { s with sound := s.v x }
  else if instruction.lo = 0x1E then
    Except.ok (incrementAddressRegister s (getValue (s.v x)))
  else if instruction.lo = 0x29 then
    Except.ok (setAddressRegister s (0x50 + 5 * (s.v x &&& 0xF)))
  else if instruction.lo = 0x33 then
    let val := getValue (s.v x)
    if RAM_SIZE < s.i + 3 then Except.error Fault.badAccess
    else
      let r0 := Function.update s.ram s.i (val / 100 % 10)
      let r1 := Function.update r0 (s.i + 1) (val / 10 % 10)
      Except.ok { s with ram := Function.update r1 (s.i + 2) (val % 10) }
  else if instruction.lo = 0x55 then
    if RAM_SIZE < s.i + (x + 1) then Except.error Fault.badAccess
    else
      Except.ok (incrementAddressRegister
        { s with ram := copyCells s.v s.ram 0 s.i (x + 1) } (x + 1))
  else if instruction.lo = 0x65 then
    let start_i := s.i
    let s1 := incrementAddressRegister s (x + 1)
    if RAM_SIZE < s1.i then Except.error Fault.badAccess
    else Except.ok { s1 with v := copyCells s1.ram s1.v start_i 0 (s1.i - start_i) }
  else Except.ok s

/-- The switch of `step` on the fetched instruction; `rnd` is the number drawn by
`getRandomByte` should the instruction be `CXNN`. -/
def execute (rnd : Nat) (instruction : Instruction) (s : Chip8ReferenceVm) :
    Except Fault Chip8ReferenceVm :=
  let family := hi_nybble instruction.hi
  if family = 0x0 then
    let nnn := getLongValue instruction.hi instruction.lo
    if nnn = 0x000 then Except.ok s
    else if nnn = 0x0E0 then Except.ok { s with display := fun _ => 0 }
    else if nnn = 0x0EE then Except.ok (doReturn s)
    else Except.ok s
  else if family = 0x1 then
    Except.ok (jump s (getLongValue instruction.hi instruction.lo))
  else if family = 0x2 then
    Except.ok (call s (getLongValue instruction.hi instruction.lo))
  else if family = 0x3 then
    if s.v (getShortValueLo instruction.hi) = instruction.lo then skip s else Except.ok s
  else if family = 0x4 then
    if s.v (getShortValueLo instruction.hi) ≠ instruction.lo then skip s else Except.ok s
  else if family = 0x5 then
    if s.v (getShortValueLo instruction.hi) = s.v (getShortValueHi instruction.lo) then skip s
    else Except.ok s
  else if family = 0x6 then
    Except.ok { s with v := Function.update s.v (getShortValueLo instruction.hi) instruction.lo }
  else if family = 0x7 then
    let x := getShortValueLo instruction.hi
    Except.ok { s with
      v := Function.update s.v x ((getValue (s.v x) + getValue instruction.lo) % 256) }
  else if family = 0x8 then Except.ok (executeAlu instruction s)
  else if family = 0x9 then
    if s.v (getShortValueLo instruction.hi) ≠ s.v (getShortValueHi instruction.lo) then skip s
    else Except.ok s
  else if family = 0xA then
    Except.ok (setAddressRegister s (getLongValue instruction.hi instruction.lo))
  else if family = 0xB then
    Except.ok (jump s (getLongValue instruction.hi instruction.lo + s.v 0x0))
  else if family = 0xC then
    Except.ok { s with
      v := Function.update s.v (getShortValueLo instruction.hi) ((rnd % 256) &&& instruction.lo) }
  else if family = 0xD then
    let x := getShortValueLo instruction.hi
    let y := getShortValueHi instruction.lo
    drawSprite s (getValue (s.v x)) (getValue (s.v y)) (getShortValueLo instruction.lo)
  else if family = 0xE then executeKey instruction s
  else if family = 0xF then executeMisc instruction s
  else Except.ok s

/-- The method `step`: nothing unless `Running`, else fetch and execute. When the
fetch halts it yields the all-zero instruction, on which the switch does nothing. -/
def step (rnd : Nat) (s : Chip8ReferenceVm) : Except Fault Chip8ReferenceVm :=
  if !s.isRunning then Except.ok s
  else
    match getInstruction s with
    | Except.error e => Except.error e
    | Except.ok (instruction, s1) => execute rnd instruction s1

/-- The method `setKeyState`. `v.at`, `keys.set` and `keys.reset` throw on an index
of 16 or more. -/
def setKeyState (s : Chip8ReferenceVm) (key : Nat) (pressed : Bool) :
    Except Fault Chip8ReferenceVm :=
  if pressed then
    if s.keypress_target_register ≠ NO_KEY then
      if s.keypress_target_register < 16 then
        let s1 := { s with
          v := Function.update s.v s.keypress_target_register (key % 256),
          keypress_target_register := NO_KEY,
          state := State.Running }
        if key < 16 then Except.ok { s1 with keys := Function.update s1.keys key true }
        else Except.error Fault.outOfRange
      else Except.error Fault.outOfRange
    else if key < 16 then Except.ok { s with keys := Function.update s.keys key true }
    else Except.error Fault.outOfRange
  else if key < 16 then Except.ok { s with keys := Function.update s.keys key false }
  else Except.error Fault.outOfRange

/-- The method `clearKeyState`. -/
def clearKeyState (s : Chip8ReferenceVm) : Chip8ReferenceVm :=
  { s with keys := fun _ => false }

/-- The function `render_display_unit` of the console front end: cell `i` (0 is the
leftmost) of a display unit is drawn lit when `display_unit & (0b10000000 >> i)` is
non-zero. -/
def render_display_unit (display_unit i : Nat) : Bool :=
  (display_unit &&& (0x80 >>> i)) != 0

/-- The pixel at column `c` and row `r` as `display_frame` paints it: the units are
walked row by row, `DISPLAY_WIDTH_UNITS` to a row, each giving 8 pixels. -/
def pixel (display : Nat → Nat) (c r : Nat) : Bool :=
  render_display_unit (display (r * DISPLAY_WIDTH_UNITS + c / 8)) (c % 8)

/-- The engine is `Running` and the two bytes at `pc` are `hi` and `lo`, both inside
memory. -/
def NextInstruction (s : Chip8ReferenceVm) (hi lo : Nat) : Prop :=
  s.state = State.Running ∧ s.pc + 2 ≤ RAM_SIZE ∧ s.ram s.pc = hi ∧ s.ram (s.pc + 1) = lo

/-- A running engine at `pc = 0x200` with the instruction `hi lo` there, registers
`v`, display `display`, address register `i` and the rest of memory `ram`. -/
def machineAt (hi lo : Nat) (v display ram : Nat → Nat) (i : Nat) : Chip8ReferenceVm :=
  { ram := Function.update (Function.update ram 0x200 hi) 0x201 lo
    pc := 0x200
    call_stack := []
    i := i
    v := v
    delay := 0
    sound := 0
    frame_limit := 0
    keys := fun _ => false
    display := display
    state := State.Running
    keypress_target_register := NO_KEY }

/-- Value of register `r` after a step, `none` on a fault. -/
def registerAfter (r : Nat) (res : Except Fault Chip8ReferenceVm) : Option Nat :=
  match res with
  | Except.ok s => some (s.v r)
  | Except.error _ => none

end Chip8ReferenceVm

/-! ## Auxiliary definitions for the sprite proofs -/

/-- What one iteration of the loop of `drawSprite` XORs into display unit `j`. -/
def lineMask (display_col subpixels display_row sprite_data j : Nat) : Nat :=
  (if j = (display_row * DISPLAY_WIDTH_UNITS + display_col) % 256
    then sprite_data >>> subpixels else 0) ^^^
  (if j = (display_row * DISPLAY_WIDTH_UNITS + (display_col + 1) % DISPLAY_WIDTH_UNITS) % 256
    then (sprite_data <<< (8 - subpixels)) % 256 else 0)

/-- What the whole loop of `drawSprite` XORs into display unit `j`. -/
def spriteMask (display_col subpixels : Nat) : List Nat → Nat → Nat → Nat
  | [], _, _ => 0
  | sprite_data :: rest, display_row, j =>
    lineMask display_col subpixels display_row sprite_data j ^^^
      spriteMask display_col subpixels rest ((display_row + 1) % DISPLAY_HEIGHT) j

/-- Display after `drawSprite`, `none` on a fault. -/
def displayAfter (res : Except Fault Chip8ReferenceVm) : Option (Nat → Nat) :=
  match res with
  | Except.ok s => some s.display
  | Except.error _ => none

/-! ## Calls made by the driver -/

/-- A call the driver makes on the engine between frames: `step()` (with the number
`getRandomByte` would draw), `setKeyState(key, pressed)` or `clearKeyState()`. -/
inductive Event where
  | step (rnd : Nat)
  | setKeyState (key : Nat) (pressed : Bool)
  | clearKeyState

/-- The engine after one call. -/
def applyEvent (e : Event) (s : Chip8ReferenceVm) : Except Fault Chip8ReferenceVm :=
  match e with
  | Event.step rnd => Chip8ReferenceVm.step rnd s
  | Event.setKeyState key pressed => Chip8ReferenceVm.setKeyState s key pressed
  | Event.clearKeyState => Except.ok (Chip8ReferenceVm.clearKeyState s)

/-- The engine after a sequence of calls, first call first. -/
def applyEvents : List Event → Chip8ReferenceVm → Except Fault Chip8ReferenceVm
  | [], s => Except.ok s
  | e :: rest, s =>
    match applyEvent e s with
    | Except.ok s1 => applyEvents rest s1
    | Except.error f => Except.error f

/-- A call that is not a key press: a `step()`, a `clearKeyState()` or the release
of one of the keys 0..15. -/
def Event.isNoPress (e : Event) : Bool :=
  match e with
  | Event.step _ => true
  | Event.setKeyState key pressed => !pressed && decide (key < 16)
  | Event.clearKeyState => true

/-- Two calls of `drawSprite` with the same arguments, one after the other. -/
def drawSpriteTwice (s : Chip8ReferenceVm) (x y lines : Nat) :
    Except Fault Chip8ReferenceVm :=
  match Chip8ReferenceVm.drawSprite s x y lines with
  | Except.ok s1 => Chip8ReferenceVm.drawSprite s1 x y lines
  | Except.error f => Except.error f

/-! ## Construction and frames -/

/-- The font table the constructor builds with `make_bytes`: 16 glyphs of 5 rows. -/
def font : List Nat :=
  [0xF0, 0x90, 0x90, 0x90, 0xF0,
   0x20, 0x60, 0x20, 0x20, 0x50,
   0xF0, 0x10, 0xF0, 0x80, 0xF0,
   0xF0, 0x10, 0xF0, 0x10, 0xF0,
   0x90, 0x90, 0xF0, 0x10, 0x10,
   0xF0, 0x80, 0xF0, 0x10, 0xF0,
   0xF0, 0x80, 0xF0, 0x90, 0xF0,
   0xF0, 0x10, 0x20, 0x40, 0x40,
   0xF0, 0x90, 0xF0, 0x90, 0xF0,
   0xF0, 0x90, 0xF0, 0x10, 0xF0,
   0xF0, 0x90, 0xF0, 0x90, 0x90,
   0xE0, 0x90, 0xE0, 0x90, 0xE0,
   0xF0, 0x80, 0x80, 0x80, 0xF0,
   0xE0, 0x90, 0x90, 0x90, 0xE0,
   0xF0, 0x80, 0xF0, 0x80, 0xF0,
   0xF0, 0x80, 0xF0, 0x80, 0x80]

/-- The algorithm `std::copy` (or `std::move`) of a byte sequence into `dst` from
`offset` on. -/
def loadBytes : List Nat → (Nat → Nat) → Nat → (Nat → Nat)
  | [], dst, _ => dst
  | b :: rest, dst, offset => loadBytes rest (Function.update dst offset b) (offset + 1)

/-- The constructor `Chip8ReferenceVm(rom)`. The members `ram` and `display` have no
initialiser, so their contents before the copies are whatever they happen to be:
the arguments `ram` and `display`. A `rom` that does not fit between `0x200` and the
end of memory is copied past `ram.end()`, which is a fault. -/
def construct (ram display : Nat → Nat) (rom : List Nat) : Except Fault Chip8ReferenceVm :=
  if RAM_SIZE < 0x200 + rom.length then Except.error Fault.badAccess
  else
    Except.ok
      { ram := loadBytes rom (loadBytes font ram 0x50) 0x200
        pc := 0x200
        call_stack := []
        i := 0
        v := fun _ => 0
        delay := 0
        sound := 0
        frame_limit := 0
        keys := fun _ => false
        display := display
        state := State.Running
        keypress_target_register := NO_KEY }

/-- The method `setEmulationSpeed`. -/
def Chip8ReferenceVm.setEmulationSpeed (s : Chip8ReferenceVm) (target_speed : Nat) :
    Chip8ReferenceVm :=
  { s with frame_limit := target_speed }

/-- Width in bits of `unsigned long` (64 on LP64 systems, 32 with MSVC). -/
def ULONG_BITS : Nat := 64

/-- What `doFrame` hands back: the count it returns, the engine it leaves, and
`step_calls`, a ghost counter of the calls of `step()` the loop made (not a variable
of the source). -/
structure FrameResult where
  instructions_executed : Nat
  step_calls : Nat
  vm : Chip8ReferenceVm

/-- The loop of `doFrame`, entered with the current values of `instructions_executed`
and of the ghost counter `step_calls`. The steady clock is the oracle `elapsed`:
`elapsed k` tells whether `time_elapsed >= tick_interval` at the reading that follows
the `k`-th call of `step()`; `rnds k` is the number `getRandomByte` would draw in call
number `k` (from 0). Each turn of the loop uses one unit of `fuel`; `none` means the
fuel ran out before the loop ended. -/
def doFrameLoop (elapsed : Nat → Bool) (rnds : Nat → Nat) :
    Nat → Nat → Nat → Chip8ReferenceVm → Option (Except Fault FrameResult)
  | 0, instructions_executed, step_calls, s =>
    if s.isRunning && (s.frame_limit == 0 || decide (instructions_executed < s.frame_limit))
    then none
    else some (Except.ok
      { instructions_executed := instructions_executed, step_calls := step_calls, vm := s })
  | fuel + 1, instructions_executed, step_calls, s =>
    if s.isRunning && (s.frame_limit == 0 || decide (instructions_executed < s.frame_limit))
    then
      match Chip8ReferenceVm.step (rnds step_calls) s with
      | Except.error f => some (Except.error f)
      | Except.ok s1 =>
        let n := (instructions_executed + 1) % 2 ^ ULONG_BITS
        if elapsed (step_calls + 1) && decide (n > 0) then
          some (Except.ok { instructions_executed := n, step_calls := step_calls + 1, vm := s1 })
        else doFrameLoop elapsed rnds fuel n (step_calls + 1) s1
    else some (Except.ok
      { instructions_executed := instructions_executed, step_calls := step_calls, vm := s })

/-- The method `doFrame`: the loop entered with both counters at 0. -/
def Chip8ReferenceVm.doFrame (elapsed : Nat → Bool) (rnds : Nat → Nat) (fuel : Nat)
    (s : Chip8ReferenceVm) : Option (Except Fault FrameResult) :=
  doFrameLoop elapsed rnds fuel 0 0 s

/-- The engine `t` can be had from the engine `s` by calls of `step()`, `doFrame()`,
`setKeyState(key, pressed)` and `clearKeyState()` that all return. -/
inductive Reaches (s : Chip8ReferenceVm) : Chip8ReferenceVm → Prop where
  | refl : Reaches s s
  | step (rnd : Nat) (t u : Chip8ReferenceVm) :
      Reaches s t → Chip8ReferenceVm.step rnd t = Except.ok u → Reaches s u
  | doFrame (elapsed : Nat → Bool) (rnds : Nat → Nat) (fuel : Nat) (t : Chip8ReferenceVm)
      (r : FrameResult) :
      Reaches s t → Chip8ReferenceVm.doFrame elapsed rnds fuel t = some (Except.ok r) →
      Reaches s r.vm
  | setKeyState (key : Nat) (pressed : Bool) (t u : Chip8ReferenceVm) :
      Reaches s t → Chip8ReferenceVm.setKeyState t key pressed = Except.ok u → Reaches s u
  | clearKeyState (t : Chip8ReferenceVm) :
      Reaches s t → Reaches s (Chip8ReferenceVm.clearKeyState t)

/-- The fault a call ended in, `none` when it returned. -/
def faultAfter (res : Except Fault Chip8ReferenceVm) : Option Fault :=
  match res with
  | Except.ok _ => none
  | Except.error f => some f

/-- An observation `f` of the engine a call returned, `none` on a fault. -/
def observeAfter {α : Type} (f : Chip8ReferenceVm → α) (res : Except Fault Chip8ReferenceVm) :
    Option α :=
  match res with
  | Except.ok s => some (f s)
  | Except.error _ => none

/-! ## Auxiliary definitions for the frame proofs -/

/-- The engine `t` has the speed budget of `s`, and its pending key request too unless
it is blocked. -/
def ControlKept (s t : Chip8ReferenceVm) : Prop :=
  t.frame_limit = s.frame_limit ∧
  (t.keypress_target_register = s.keypress_target_register ∨ t.state = State.Blocked)

/-- The result `r`, if it is an engine, satisfies `ControlKept s`. -/
def OkControlKept (s : Chip8ReferenceVm) (r : Except Fault Chip8ReferenceVm) : Prop :=
  ∀ t, r = Except.ok t → ControlKept s t

/-! ## Statement of the skip behaviour -/

/-- What a conditional skip fetched from the running engine `s` (program counter `A`)
must have made of it, `res` being the outcome of the step and `c` the condition:
* `c` false: the engine with the program counter at `A + 2`, nothing else changed;
* `c` true and `A + 4 <= 4096`: the engine with the program counter at `A + 4`,
  nothing else changed;
* `c` true and `A + 4 > 4096`: an engine in the `Halted` state with registers, memory,
  address register, display and call stack unchanged. -/
def SkipsWhen (c : Prop) (res : Except Fault Chip8ReferenceVm) (s : Chip8ReferenceVm) : Prop :=
  (¬ c → res = Except.ok { s with pc := s.pc + 2 }) ∧
  (c → s.pc + 4 ≤ RAM_SIZE → res = Except.ok { s with pc := s.pc + 4 }) ∧
  (c → RAM_SIZE < s.pc + 4 →
    ∃ t, res = Except.ok t ∧ t.state = State.Halted ∧ t.v = s.v ∧ t.ram = s.ram ∧
      t.i = s.i ∧ t.display = s.display ∧ t.call_stack = s.call_stack)

/-! ## Display indices -/

/-- Number of units of `Display = std::array<std::byte, DISPLAY_WIDTH_UNITS * DISPLAY_HEIGHT>`. -/
def DISPLAY_SIZE : Nat := DISPLAY_WIDTH_UNITS * DISPLAY_HEIGHT

/-- The two values one iteration of the loop of `drawSprite` assigns to
`display_index`, as computed and before their conversion to `uint_fast8_t`. -/
def displayIndices (display_col display_row : Nat) : Nat × Nat :=
  (display_row * DISPLAY_WIDTH_UNITS + display_col,
   display_row * DISPLAY_WIDTH_UNITS + (display_col + 1) % DISPLAY_WIDTH_UNITS)

/-- The index pairs of `lines` successive iterations of the loop of `drawSprite`
starting at `display_row`, which steps as in the loop. -/
def displayIndexPairs (display_col : Nat) : Nat → Nat → List (Nat × Nat)
  | 0, _ => []
  | lines + 1, display_row =>
    displayIndices display_col display_row ::
      displayIndexPairs display_col lines ((display_row + 1) % DISPLAY_HEIGHT)

/-- The index pairs `drawSprite(x, y, lines)` computes, line by line. -/
def drawSpriteIndices (x y lines : Nat) : List (Nat × Nat) :=
  displayIndexPairs (x % DISPLAY_WIDTH / 8) lines (y % DISPLAY_HEIGHT)

/-! ## Concrete inputs for the evaluations -/

/-- Input for `8XY5`: the instruction `8125` with `V1 = 5` and `V2 = 3`. -/
def subInput : Chip8ReferenceVm :=
  Chip8ReferenceVm.machineAt 0x81 0x25 (fun r => if r = 1 then 5 else if r = 2 then 3 else 0)
    (fun _ => 0) (fun _ => 0) 0

/-- Input for `8XY4` with the flag register as destination: the instruction `8F04`
with every register equal to 1. -/
def addFlagInput : Chip8ReferenceVm :=
  Chip8ReferenceVm.machineAt 0x8F 0x04 (fun _ => 1) (fun _ => 0) (fun _ => 0) 0

/-- Input for `8XY7`: the instruction `8127` with `V1 = 3` and `V2 = 5`. -/
def reverseSubInput : Chip8ReferenceVm :=
  Chip8ReferenceVm.machineAt 0x81 0x27 (fun r => if r = 1 then 3 else if r = 2 then 5 else 0)
    (fun _ => 0) (fun _ => 0) 0

/-- Input for `DXYN` on a blank display: the instruction `D011` with `V0 = V1 = 0`,
`I = 0x300` and the sprite byte `0xFF` there. -/
def drawBlankInput : Chip8ReferenceVm :=
  Chip8ReferenceVm.machineAt 0xD0 0x11 (fun _ => 0) (fun _ => 0)
    (fun a => if a = 0x300 then 0xFF else 0) 0x300

/-- Input for two draws of a one-line sprite: a blank display, `I = 0x300` and the
sprite byte `0x01` there. -/
def drawTwiceInput : Chip8ReferenceVm :=
  Chip8ReferenceVm.machineAt 0x00 0x00 (fun _ => 0) (fun _ => 0)
    (fun a => if a = 0x300 then 0x01 else 0) 0x300

/-- A blocked engine: the instruction `1200` at `0x200`, state `Blocked`. -/
def blockedInput : Chip8ReferenceVm :=
  { ram := Function.update (Function.update (fun _ => 0) 0x200 0x12) 0x201 0x00
    pc := 0x200
    call_stack := []
    i := 0
    v := fun _ => 0
    delay := 0
    sound := 0
    frame_limit := 0
    keys := fun _ => false
    display := fun _ => 0
    state := State.Blocked
    keypress_target_register := 3 }

/-- Input for `00EE` on an empty call stack. -/
def returnInput : Chip8ReferenceVm :=
  Chip8ReferenceVm.machineAt 0x00 0xEE (fun _ => 0) (fun _ => 0) (fun _ => 0) 0

/-- Input for a call and immediate return: `2300` at `0x200`, `00EE` at `0x300`, and
one return address already on the stack. -/
def callInput : Chip8ReferenceVm :=
  { Chip8ReferenceVm.machineAt 0x23 0x00 (fun _ => 0) (fun _ => 0)
      (fun a => if a = 0x301 then 0xEE else 0) 0 with call_stack := [0x456] }

/-- Input for `FX33`: the instruction `F233` with `V2 = 254` and `I = 0x300`. -/
def bcdInput : Chip8ReferenceVm :=
  Chip8ReferenceVm.machineAt 0xF2 0x33 (fun r => if r = 2 then 254 else 0) (fun _ => 0)
    (fun _ => 0) 0x300

/-- Input for `FX55`: the instruction `F255` with `Vr = r + 1` and `I = 0x300`. -/
def storeInput : Chip8ReferenceVm :=
  Chip8ReferenceVm.machineAt 0xF2 0x55 (fun r => r + 1) (fun _ => 0) (fun _ => 0) 0x300

/-- Input for `FX65`: the instruction `F265` with memory cell `a` holding `a mod 256`
and `I = 0x300`. -/
def loadInput : Chip8ReferenceVm :=
  Chip8ReferenceVm.machineAt 0xF2 0x65 (fun _ => 7) (fun _ => 0) (fun a => a % 256) 0x300

/-- The engine built from `rom` (over zeroed memory and display) after the calls
`events`, first call first. -/
def constructAndRun (rom : List Nat) (events : List Event) : Except Fault Chip8ReferenceVm :=
  match construct (fun _ => 0) (fun _ => 0) rom with
  | Except.ok s => applyEvents events s
  | Except.error f => Except.error f

/-- A four byte program: `6002` (`V0 := 2`), then `BFFF` (jump to `0xFFF + V0`). -/
def overrunRom : List Nat := [0x60, 0x02, 0xBF, 0xFF]

/-- Input for `EX9E` with a key code above 15: the instruction `E09E` with `V0 = 16`. -/
def keyInput : Chip8ReferenceVm :=
  Chip8ReferenceVm.machineAt 0xE0 0x9E (fun _ => 16) (fun _ => 0) (fun _ => 0) 0

/-- Input for `EX9E` and `EXA1` with a key code in range: `V0 = 5`, key 5 pressed,
the instruction being `hi lo`. -/
def keyFiveInput (hi lo : Nat) : Chip8ReferenceVm :=
  { Chip8ReferenceVm.machineAt hi lo (fun _ => 5) (fun _ => 0) (fun _ => 0) 0 with
      keys := fun k => decide (k = 5) }

/-- A key request is pending only while the engine is blocked. -/
def KeyRequestInv (s : Chip8ReferenceVm) : Prop :=
  s.keypress_target_register ≠ NO_KEY → s.state = State.Blocked

/-- The engine a call returned, or `dflt` on a fault. -/
def engineAfter (dflt : Chip8ReferenceVm) (res : Except Fault Chip8ReferenceVm) :
    Chip8ReferenceVm :=
  match res with
  | Except.ok s => s
  | Except.error _ => dflt

/-- A two byte program: `1FFF`, a jump to the last byte of memory. -/
def haltRom : List Nat := [0x1F, 0xFF]

/-- The engine built from `haltRom` over zeroed memory and display, after `n` steps. -/
def haltEngine (n : Nat) : Chip8ReferenceVm :=
  engineAfter blockedInput (constructAndRun haltRom (List.replicate n (Event.step 0)))

/-- Input for a skip at the end of memory: `3000` at address 4094 with `V0 = 0`. -/
def skipAtEndInput : Chip8ReferenceVm :=
  { ram := Function.update (Function.update (fun _ => 0) 4094 0x30) 4095 0x00
    pc := 4094
    call_stack := []
    i := 0
    v := fun _ => 0
    delay := 0
    sound := 0
    frame_limit := 0
    keys := fun _ => false
    display := fun _ => 0
    state := State.Running
    keypress_target_register := NO_KEY }

/-- Input for `5XY1`: the instruction `5011` with all registers 0 (so `V0 = V1`). -/
def fiveOneInput : Chip8ReferenceVm :=
  Chip8ReferenceVm.machineAt 0x50 0x11 (fun _ => 0) (fun _ => 0) (fun _ => 0) 0

/-- Input for `9XY1`: the instruction `9011` with `V0 = 1` and `V1 = 0`. -/
def nineOneInput : Chip8ReferenceVm :=
  Chip8ReferenceVm.machineAt 0x90 0x11 (fun r => if r = 0 then 1 else 0) (fun _ => 0)
    (fun _ => 0) 0

/-- A six byte program: `6001` (`V0 := 1`), `AFFF` (`I := 0xFFF`), `F01E`
(`I := I + V0`). -/
def addressRom : List Nat := [0x60, 0x01, 0xAF, 0xFF, 0xF0, 0x1E]

/-- Input for `FX1E`: the instruction `F01E` with `V0 = 200` and `I = 4000`. -/
def addToAddressInput : Chip8ReferenceVm :=
  Chip8ReferenceVm.machineAt 0xF0 0x1E (fun _ => 200) (fun _ => 0) (fun _ => 0) 4000

/-- The engine built from `addressRom` over zeroed memory and display. -/
def addressEngine0 : Chip8ReferenceVm :=
  engineAfter blockedInput (construct (fun _ => 0) (fun _ => 0) addressRom)

/-- The engine `addressEngine0` after `6001`. -/
def addressEngine1 : Chip8ReferenceVm :=
  { addressEngine0 with pc := 0x202, v := Function.update (fun _ => 0) 0 1 }

/-- The engine `addressEngine1` after `AFFF`. -/
def addressEngine2 : Chip8ReferenceVm :=
  { addressEngine1 with pc := 0x204, i := 0xFFF }

/-- The engine `addressEngine2` after `F01E`. -/
def addressEngine3 : Chip8ReferenceVm :=
  { addressEngine2 with pc := 0x206, i := 0x1000 }

end Chip8

namespace Chip8

open Chip8ReferenceVm

/-! ## Decoding and fetching -/

theorem hi_nybble_eq (b : Nat) : hi_nybble b = b / 16 := by
  unfold hi_nybble
  rw [Nat.shiftRight_eq_div_pow]

theorem lo_nybble_eq (b : Nat) : lo_nybble b = b % 16 := by
  unfold lo_nybble
  exact Nat.and_pow_two_sub_one_eq_mod b 4

theorem getShortValueLo_eq (b : Nat) : getShortValueLo b = b % 16 := lo_nybble_eq b

theorem getShortValueHi_eq (b : Nat) : getShortValueHi b = b / 16 := hi_nybble_eq b

/-- A fetch inside memory returns the two bytes at `pc` and advances `pc` by 2. -/
theorem getInstruction_of_next (s : Chip8ReferenceVm) (hi lo : Nat)
    (h : NextInstruction s hi lo) :
    getInstruction s = Except.ok ({ hi := hi, lo := lo }, { s with pc := s.pc + 2 }) := by
  obtain ⟨_, hpc, hhi, hlo⟩ := h
  unfold RAM_SIZE at hpc
  have h1 : ¬ (4096 < s.pc) := by omega
  have h2 : s.pc ≠ 4096 := by omega
  have h3 : s.pc + 1 ≠ 4096 := by omega
  simp [getInstruction, RAM_SIZE, h1, h2, h3, hhi, hlo]

/-- A step of a running engine whose next instruction lies inside memory is the
switch applied to that instruction, with `pc` already advanced by 2. -/
theorem step_of_next (rnd : Nat) (s : Chip8ReferenceVm) (hi lo : Nat)
    (h : NextInstruction s hi lo) :
    step rnd s = execute rnd { hi := hi, lo := lo } { s with pc := s.pc + 2 } := by
  have hrun : s.isRunning = true := by simp [isRunning, h.1]
  simp [step, hrun, getInstruction_of_next s hi lo h]

/-! ## Arithmetic instructions -/

/-- A step on an instruction of family 8 is `executeAlu` after the fetch. -/
theorem step_alu (rnd : Nat) (s : Chip8ReferenceVm) (x lo : Nat) (hx : x < 16)
    (h : NextInstruction s (0x80 + x) lo) :
    step rnd s =
      Except.ok (executeAlu { hi := 0x80 + x, lo := lo } { s with pc := s.pc + 2 }) := by
  have hfam : hi_nybble (0x80 + x) = 8 := by rw [hi_nybble_eq]; omega
  rw [step_of_next rnd s _ _ h]
  simp only [execute, hfam]
  rfl

/-- C1, evaluation of the code at a failing input. With `V1 = 5`, `V2 = 3` the
instruction `8125` is the next one, and after the step `V1` is 253 and `VF` is 255,
whereas `(5 - 3) mod 256 = 2` and no borrow occurs: the minuend is masked with
`0x100` (giving 0) instead of having bit 8 set. -/
theorem C1_sub_8XY5_failing_input :
    NextInstruction subInput (0x80 + 1) (2 * 16 + 5) ∧
    subInput.v 1 = 5 ∧ subInput.v 2 = 3 ∧
    registerAfter 1 (step 0 subInput) = some 253 ∧
    registerAfter 0xF (step 0 subInput) = some 255 ∧
    (5 - 3) % 256 = 2 := by
  refine ⟨⟨rfl, by decide, rfl, rfl⟩, rfl, rfl, ?_, ?_, rfl⟩
  · decide
  · decide

/-- C4, counterexample. With `x = 0xF`, `y = 0` and `VF = V0 = 1` the instruction
`8F04` leaves `VF = 0` (the carry), not `(1 + 1) mod 256 = 2`: the flag write comes
after the sum write and lands in the same register. -/
theorem C4_add_8XY4_counterexample :
    NextInstruction addFlagInput (0x80 + 0xF) (0 * 16 + 4) ∧
    addFlagInput.v 0xF = 1 ∧ addFlagInput.v 0 = 1 ∧
    registerAfter 0xF (step 0 addFlagInput) = some 0 ∧
    (1 + 1) % 256 = 2 := by
  refine ⟨⟨rfl, by decide, rfl, rfl⟩, rfl, rfl, ?_, rfl⟩
  decide

/-- C4, amended. For all register indices `x`, `y` and 8-bit values `a = Vx`,
`b = Vy`, the instruction `8XY4` sets `VF` to 1 if `a + b >= 256` and to 0
otherwise, and, when `x` is not `0xF`, sets `Vx` to `(a + b) mod 256`. -/
theorem C4_add_8XY4 (rnd : Nat) (s : Chip8ReferenceVm) (x y : Nat)
    (hx : x < 16) (_hy : y < 16) (ha : s.v x < 256) (hb : s.v y < 256)
    (h : NextInstruction s (0x80 + x) (y * 16 + 4)) :
    ∃ s', step rnd s = Except.ok s' ∧
      (x ≠ 0xF → s'.v x = (s.v x + s.v y) % 256) ∧
      s'.v 0xF = (if 256 ≤ s.v x + s.v y then 1 else 0) := by
  have hX : getShortValueLo (0x80 + x) = x := by rw [getShortValueLo_eq]; omega
  have hY : getShortValueHi (y * 16 + 4) = y := by rw [getShortValueHi_eq]; omega
  have hop : lo_nybble (y * 16 + 4) = 4 := by rw [lo_nybble_eq]; omega
  refine ⟨_, step_alu rnd s x _ hx h, ?_, ?_⟩
  · intro hxF
    simp only [executeAlu, hX, hY, hop]
    simp [Function.update_noteq hxF]
  · simp only [executeAlu, hX, hY, hop]
    simp only [Nat.shiftRight_eq_div_pow]
    simp
    split <;> omega

/-- C4, the amended statement at the instruction `8124` with `V1 = 200`, `V2 = 100`. -/
theorem C4_add_8XY4_witness :
    ∃ s', step 0 (machineAt 0x81 0x24 (fun r => if r = 1 then 200 else 100)
        (fun _ => 0) (fun _ => 0) 0) = Except.ok s' ∧
      ((1 : Nat) ≠ 0xF → s'.v 1 = (200 + 100) % 256) ∧
      s'.v 0xF = (if 256 ≤ 200 + 100 then 1 else 0) :=
  C4_add_8XY4 0 (machineAt 0x81 0x24 (fun r => if r = 1 then 200 else 100)
    (fun _ => 0) (fun _ => 0) 0) 1 2 (by decide) (by decide) (by decide) (by decide)
    ⟨rfl, by decide, rfl, rfl⟩

/-- C5. For every register index `x` and every immediate byte `b`, the instruction
`7XNN` with `NN = b` sets `Vx` to `(Vx + b) mod 256` and changes no other register;
in particular `VF` keeps its value when `x` is not `0xF`, whatever the sum. -/
theorem C5_add_immediate_7XNN (rnd : Nat) (s : Chip8ReferenceVm) (x b : Nat)
    (hx : x < 16) (h : NextInstruction s (0x70 + x) b) :
    ∃ s', step rnd s = Except.ok s' ∧
      s'.v x = (s.v x + b) % 256 ∧
      (∀ r, r ≠ x → s'.v r = s.v r) ∧
      (x ≠ 0xF → s'.v 0xF = s.v 0xF) := by
  have hfam : hi_nybble (0x70 + x) = 7 := by rw [hi_nybble_eq]; omega
  have hX : getShortValueLo (0x70 + x) = x := by rw [getShortValueLo_eq]; omega
  have hstep : step rnd s = Except.ok { s with
      pc := s.pc + 2, v := Function.update s.v x ((s.v x + b) % 256) } := by
    rw [step_of_next rnd s _ _ h]
    simp [execute, hfam, hX, getValue]
  refine ⟨_, hstep, ?_, ?_, ?_⟩
  · simp
  · intro r hr
    simp [Function.update_noteq hr]
  · intro hxF
    simp [Function.update_noteq (Ne.symm hxF)]

/-- C5 at the instruction `71FF` with `V1 = 2` and `VF = 7`: the sum overflows. -/
theorem C5_add_immediate_7XNN_witness :
    ∃ s', step 0 (machineAt 0x71 0xFF (fun r => if r = 1 then 2 else 7)
        (fun _ => 0) (fun _ => 0) 0) = Except.ok s' ∧
      s'.v 1 = (2 + 0xFF) % 256 ∧
      (∀ r, r ≠ 1 → s'.v r = (if r = 1 then 2 else 7)) ∧
      ((1 : Nat) ≠ 0xF → s'.v 0xF = 7) :=
  C5_add_immediate_7XNN 0 (machineAt 0x71 0xFF (fun r => if r = 1 then 2 else 7)
    (fun _ => 0) (fun _ => 0) 0) 1 0xFF (by decide) ⟨rfl, by decide, rfl, rfl⟩

/-- C6. For distinct register indices `x` and `y` other than `0xF`, the instruction
`8XY6` sets `Vx` to `Vy` shifted right by one bit (`Vy / 2`), leaves `Vy` as it was
and sets `VF` to bit 0 of `Vy`. -/
theorem C6_shift_right_8XY6 (rnd : Nat) (s : Chip8ReferenceVm) (x y : Nat)
    (hx : x < 16) (_hy : y < 16) (hxy : x ≠ y) (hxF : x ≠ 0xF) (hyF : y ≠ 0xF)
    (h : NextInstruction s (0x80 + x) (y * 16 + 6)) :
    ∃ s', step rnd s = Except.ok s' ∧
      s'.v x = s.v y / 2 ∧ s'.v y = s.v y ∧ s'.v 0xF = s.v y % 2 := by
  have hX : getShortValueLo (0x80 + x) = x := by rw [getShortValueLo_eq]; omega
  have hY : getShortValueHi (y * 16 + 6) = y := by rw [getShortValueHi_eq]; omega
  have hop : lo_nybble (y * 16 + 6) = 6 := by rw [lo_nybble_eq]; omega
  refine ⟨_, step_alu rnd s x _ hx h, ?_, ?_, ?_⟩
  · simp only [executeAlu, hX, hY, hop]
    simp [Function.update_noteq hxF, Nat.shiftRight_eq_div_pow]
  · simp only [executeAlu, hX, hY, hop]
    simp [Function.update_noteq hyF, Function.update_noteq (Ne.symm hxy)]
  · simp only [executeAlu, hX, hY, hop]
    simp

/-- C6 at the instruction `8126` with `V2 = 7`. -/
theorem C6_shift_right_8XY6_witness :
    ∃ s', step 0 (machineAt 0x81 0x26 (fun r => if r = 2 then 7 else 0)
        (fun _ => 0) (fun _ => 0) 0) = Except.ok s' ∧
      s'.v 1 = 7 / 2 ∧ s'.v 2 = 7 ∧ s'.v 0xF = 7 % 2 :=
  C6_shift_right_8XY6 0 (machineAt 0x81 0x26 (fun r => if r = 2 then 7 else 0)
    (fun _ => 0) (fun _ => 0) 0) 1 2 (by decide) (by decide) (by decide) (by decide)
    (by decide) ⟨rfl, by decide, rfl, rfl⟩

/-- C7, evaluation of the code at a failing input. With `V1 = 3`, `V2 = 5` the
instruction `8127` is the next one, and after the step `V1` is 253 and `VF` is 255,
whereas `(5 - 3) mod 256 = 2` and no borrow occurs: the minuend `Vy` is masked with
`0x100` (giving 0) instead of having bit 8 set. -/
theorem C7_reverse_sub_8XY7_failing_input :
    NextInstruction reverseSubInput (0x80 + 1) (2 * 16 + 7) ∧
    reverseSubInput.v 1 = 3 ∧ reverseSubInput.v 2 = 5 ∧
    registerAfter 1 (step 0 reverseSubInput) = some 253 ∧
    registerAfter 0xF (step 0 reverseSubInput) = some 255 ∧
    (5 - 3) % 256 = 2 := by
  refine ⟨⟨rfl, by decide, rfl, rfl⟩, rfl, rfl, ?_, ?_, rfl⟩
  · decide
  · decide

/-! ## Sprite drawing: the display -/

/-- One loop iteration XORs `lineMask` into the display. -/
theorem drawSpriteLine_display (col sub row sd : Nat) (s : Chip8ReferenceVm) (j : Nat) :
    (drawSpriteLine col sub row sd s).display j = s.display j ^^^ lineMask col sub row sd j := by
  simp only [drawSpriteLine, lineMask, Function.update_apply]
  split_ifs <;> simp_all [Nat.xor_assoc]

/-- The loop XORs `spriteMask` into the display. -/
theorem drawSpriteLines_display (col sub : Nat) (sprite : List Nat) :
    ∀ (row : Nat) (s : Chip8ReferenceVm) (j : Nat),
      (drawSpriteLines col sub sprite row s).display j =
        s.display j ^^^ spriteMask col sub sprite row j := by
  induction sprite with
  | nil => intro row s j; simp [drawSpriteLines, spriteMask]
  | cons sd rest ih =>
    intro row s j
    simp only [drawSpriteLines, spriteMask]
    rw [ih, drawSpriteLine_display, Nat.xor_assoc]

/-- The loop leaves memory, address register, program counter, stack and state as
they were. -/
theorem drawSpriteLines_frame (col sub : Nat) (sprite : List Nat) :
    ∀ (row : Nat) (s : Chip8ReferenceVm),
      (drawSpriteLines col sub sprite row s).ram = s.ram ∧
      (drawSpriteLines col sub sprite row s).i = s.i ∧
      (drawSpriteLines col sub sprite row s).pc = s.pc ∧
      (drawSpriteLines col sub sprite row s).call_stack = s.call_stack ∧
      (drawSpriteLines col sub sprite row s).state = s.state := by
  induction sprite with
  | nil => intro row s; simp [drawSpriteLines]
  | cons sd rest ih =>
    intro row s
    simp only [drawSpriteLines]
    obtain ⟨h1, h2, h3, h4, h5⟩ := ih ((row + 1) % DISPLAY_HEIGHT) (drawSpriteLine col sub row sd s)
    rw [h1, h2, h3, h4, h5]
    simp [drawSpriteLine]

/-- When the sprite lies inside memory `drawSprite` does not fault. -/
theorem drawSprite_ok (s : Chip8ReferenceVm) (x y n : Nat) (hi : s.i + n ≤ RAM_SIZE) :
    drawSprite s x y n = Except.ok
      (drawSpriteLines (x % DISPLAY_WIDTH / 8) (x % DISPLAY_WIDTH % 8)
        (spriteData { s with v := Function.update s.v 0xF 0 } n) (y % DISPLAY_HEIGHT)
        { s with v := Function.update s.v 0xF 0 }) := by
  have h : ¬ (n ≠ 0 ∧ RAM_SIZE < s.i + n) := by omega
  simp only [drawSprite, h, if_false]

/-- The sprite bytes depend on memory and the address register only. -/
theorem spriteData_congr (s1 s2 : Chip8ReferenceVm) (n : Nat)
    (hram : s1.ram = s2.ram) (hi : s1.i = s2.i) : spriteData s1 n = spriteData s2 n := by
  simp [spriteData, hram, hi]

/-- When the sprite lies inside memory, `drawSprite` returns a state with the same
memory and address register whose display is the old one XOR `spriteMask`. -/
theorem drawSprite_spec (s : Chip8ReferenceVm) (x y n : Nat) (hi : s.i + n ≤ RAM_SIZE) :
    ∃ s', drawSprite s x y n = Except.ok s' ∧ s'.ram = s.ram ∧ s'.i = s.i ∧
      ∀ j, s'.display j = s.display j ^^^
        spriteMask (x % DISPLAY_WIDTH / 8) (x % DISPLAY_WIDTH % 8) (spriteData s n)
          (y % DISPLAY_HEIGHT) j := by
  refine ⟨_, drawSprite_ok s x y n hi, ?_, ?_, ?_⟩
  · exact (drawSpriteLines_frame _ _ _ _ _).1
  · exact (drawSpriteLines_frame _ _ _ _ _).2.1
  · intro j
    rw [drawSpriteLines_display]
    rfl

/-- C8. For every display, position `(x, y)`, height `n` in 0..15 and sprite lying
inside memory (`I + n <= 4096`), two calls of `drawSprite(x, y, n)` both return and
leave the display buffer equal, unit for unit, to what it was before the first; in
particular every unit that was zero is zero again. -/
theorem C8_drawSprite_twice (s : Chip8ReferenceVm) (x y n : Nat)
    (_hn : n ≤ 15) (hi : s.i + n ≤ RAM_SIZE) :
    ∃ s1 s2, drawSprite s x y n = Except.ok s1 ∧ drawSprite s1 x y n = Except.ok s2 ∧
      s2.display = s.display ∧ (∀ j, s.display j = 0 → s2.display j = 0) := by
  obtain ⟨s1, h1, hram1, hi1, hd1⟩ := drawSprite_spec s x y n hi
  obtain ⟨s2, h2, -, -, hd2⟩ := drawSprite_spec s1 x y n (by rw [hi1]; exact hi)
  have hd : ∀ j, s2.display j = s.display j := by
    intro j
    rw [hd2, hd1, spriteData_congr s1 s n hram1 hi1, Nat.xor_assoc, Nat.xor_self,
      Nat.xor_zero]
  refine ⟨s1, s2, h1, h2, funext hd, ?_⟩
  intro j hj
  rw [hd j, hj]

/-- C8 for a 2-line sprite at `(61, 31)`, which wraps both ways, on a display whose
unit `j` holds `j mod 256`. -/
theorem C8_drawSprite_twice_witness :
    ∃ s1 s2,
      drawSprite (machineAt 0xD0 0x12 (fun _ => 0) (fun j => j % 256) (fun _ => 0xA5) 0x300)
        61 31 2 = Except.ok s1 ∧
      drawSprite s1 61 31 2 = Except.ok s2 ∧
      s2.display = (fun j => j % 256) ∧
      (∀ j, j % 256 = 0 → s2.display j = 0) :=
  C8_drawSprite_twice
    (machineAt 0xD0 0x12 (fun _ => 0) (fun j => j % 256) (fun _ => 0xA5) 0x300) 61 31 2
    (by decide) (by decide)

/-! ## Sprite drawing: pixels -/

/-- Masking with a single bit tests that bit. -/
theorem and_two_pow_ne_zero (u k : Nat) : ((u &&& 2 ^ k) != 0) = u.testBit k := by
  by_cases h : u.testBit k = true
  · have hb : (u &&& 2 ^ k).testBit k = true := by
      rw [Nat.testBit_and, h, Nat.testBit_two_pow_self]; rfl
    have hne : u &&& 2 ^ k ≠ 0 := by
      intro h0
      rw [h0, Nat.zero_testBit] at hb
      exact Bool.noConfusion hb
    simp [h, hne]
  · have hf : u.testBit k = false := by simpa using h
    have h0 : u &&& 2 ^ k = 0 := by
      apply Nat.eq_of_testBit_eq
      intro i
      rw [Nat.testBit_and, Nat.zero_testBit]
      by_cases hik : k = i
      · subst hik; simp [hf]
      · simp [Nat.testBit_two_pow_of_ne hik]
    simp [hf, h0]

/-- Cell `p` of a display unit is bit `7 - p` of its byte: the most significant bit is
the leftmost pixel. -/
theorem render_display_unit_eq (u p : Nat) (hp : p < 8) :
    render_display_unit u p = u.testBit (7 - p) := by
  have h : 0x80 >>> p = 2 ^ (7 - p) := by
    interval_cases p <;> rfl
  unfold render_display_unit
  rw [h]
  exact and_two_pow_ne_zero u (7 - p)

/-- Bit `7 - p` of what one sprite line XORs into the unit at byte column `q` of row
`r`: the sprite bit of the pixel `8 * q + p` when the row is the line's and the pixel
is at most 7 to the right of the sprite's left edge, wrapping modulo 64. -/
theorem lineMask_testBit (col sub row sd q r p : Nat)
    (hcol : col < 8) (hsub : sub < 8) (hrow : row < 32) (hsd : sd < 256)
    (hq : q < 8) (_hr : r < 32) (hp : p < 8) :
    (lineMask col sub row sd (r * 8 + q)).testBit (7 - p) =
      (decide (r = row) && (decide ((8 * q + p + 64 - (8 * col + sub)) % 64 < 8) &&
        sd.testBit (7 - (8 * q + p + 64 - (8 * col + sub)) % 64))) := by
  have e1 : (row * 8 + col) % 256 = row * 8 + col := by omega
  have e2 : (row * 8 + (col + 1) % 8) % 256 = row * 8 + (col + 1) % 8 := by omega
  have e256 : (256 : Nat) = 2 ^ 8 := rfl
  have hbig : ∀ m, 8 ≤ m → sd.testBit m = false := by
    intro m hm
    apply Nat.testBit_lt_two_pow
    calc sd < 2 ^ 8 := hsd
      _ ≤ 2 ^ m := Nat.pow_le_pow_right (by decide) hm
  simp only [lineMask, DISPLAY_WIDTH_UNITS, DISPLAY_WIDTH, Nat.reduceDiv, e1, e2,
    Nat.testBit_xor]
  by_cases h1 : r * 8 + q = row * 8 + col
  · have hrr : r = row := by omega
    have hqc : q = col := by omega
    subst hrr
    subst hqc
    have h2 : ¬ (r * 8 + q = r * 8 + (q + 1) % 8) := by omega
    rw [if_pos rfl, if_neg h2]
    simp only [Nat.zero_testBit, Bool.xor_false, Nat.testBit_shiftRight, decide_True,
      Bool.true_and]
    by_cases hps : sub ≤ p
    · have hj : (8 * q + p + 64 - (8 * q + sub)) % 64 = p - sub := by omega
      have hidx : sub + (7 - p) = 7 - (p - sub) := by omega
      have hlt : p - sub < 8 := by omega
      rw [hj, hidx]
      simp [hlt]
    · have hj : ¬ ((8 * q + p + 64 - (8 * q + sub)) % 64 < 8) := by omega
      rw [hbig (sub + (7 - p)) (by omega)]
      simp [hj]
  · by_cases h2 : r * 8 + q = row * 8 + (col + 1) % 8
    · have hrr : r = row := by omega
      have hqc : q = (col + 1) % 8 := by omega
      subst hrr
      rw [if_neg h1, if_pos h2]
      simp only [Nat.zero_testBit, Bool.false_xor, decide_True, Bool.true_and]
      rw [e256, Nat.testBit_mod_two_pow, Nat.testBit_shiftLeft]
      by_cases hps : p < sub
      · have hj : (8 * q + p + 64 - (8 * col + sub)) % 64 = 8 + p - sub := by omega
        have hidx : 7 - p - (8 - sub) = 7 - (8 + p - sub) := by omega
        have hlt : 8 + p - sub < 8 := by omega
        have hge : 7 - p ≥ 8 - sub := by omega
        have h7 : 7 - p < 8 := by omega
        rw [hj, hidx]
        simp [hlt, hge, h7]
      · have hj : ¬ ((8 * q + p + 64 - (8 * col + sub)) % 64 < 8) := by omega
        have hge : ¬ (7 - p ≥ 8 - sub) := by omega
        simp [hj, hge]
    · rw [if_neg h1, if_neg h2]
      simp only [Nat.zero_testBit, Bool.xor_false]
      by_cases hrr : r = row
      · have hj : ¬ ((8 * q + p + 64 - (8 * col + sub)) % 64 < 8) := by omega
        simp [hj]
      · simp [hrr]

/-- Bit `7 - p` of what a sprite of at most 32 lines XORs into the unit at byte column
`q` of row `r`: line `(r - row) mod 32` of the sprite, if there is one, decides. -/
theorem spriteMask_testBit (col sub : Nat) (hcol : col < 8) (hsub : sub < 8)
    (sprite : List Nat) :
    ∀ row, row < 32 → sprite.length ≤ 32 → (∀ sd ∈ sprite, sd < 256) →
      ∀ q r p, q < 8 → r < 32 → p < 8 →
        (spriteMask col sub sprite row (r * 8 + q)).testBit (7 - p) =
          (decide ((r + 32 - row) % 32 < sprite.length) &&
            (decide ((8 * q + p + 64 - (8 * col + sub)) % 64 < 8) &&
              (sprite.getD ((r + 32 - row) % 32) 0).testBit
                (7 - (8 * q + p + 64 - (8 * col + sub)) % 64))) := by
  induction sprite with
  | nil =>
    intro row _ _ _ q r p _ _ _
    simp [spriteMask]
  | cons sd rest ih =>
    intro row hrow hlen hbytes q r p hq hr hp
    have hlen1 : rest.length ≤ 31 := by
      simp only [List.length_cons] at hlen
      omega
    have hrow1 : (row + 1) % 32 < 32 := by omega
    have hsd : sd < 256 := hbytes sd (List.mem_cons_self sd rest)
    have hrest : ∀ b ∈ rest, b < 256 := fun b hb => hbytes b (List.mem_cons_of_mem sd hb)
    simp only [spriteMask, DISPLAY_HEIGHT, Nat.testBit_xor, List.length_cons]
    rw [lineMask_testBit col sub row sd q r p hcol hsub hrow hsd hq hr hp,
      ih ((row + 1) % 32) hrow1 (by omega) hrest q r p hq hr hp]
    by_cases hrr : r = row
    · subst hrr
      have hk : (r + 32 - r) % 32 = 0 := by omega
      have hk1 : ¬ ((r + 32 - (r + 1) % 32) % 32 < rest.length) := by omega
      rw [hk]
      simp [hk1]
    · obtain ⟨k, hk⟩ : ∃ k, (r + 32 - row) % 32 = k + 1 := ⟨(r + 32 - row) % 32 - 1, by omega⟩
      have hk1 : (r + 32 - (row + 1) % 32) % 32 = k := by omega
      rw [hk, hk1]
      simp [hrr]

/-- The sprite bytes are the memory cells from the address register on. -/
theorem spriteData_getD (s : Chip8ReferenceVm) (n k : Nat) (hk : k < n) :
    (spriteData s n).getD k 0 = s.ram (s.i + k) := by
  simp [spriteData, List.getD_eq_getElem?_getD, List.getElem?_map, List.getElem?_range hk]

theorem spriteData_length (s : Chip8ReferenceVm) (n : Nat) : (spriteData s n).length = n := by
  simp [spriteData]

/-- C3. For every display, every `Vx`, `Vy` in 0..255, every height `n` in 0..15 and
sprite bytes `s_0 .. s_(n-1)` at `I` with `I + n <= 4096`, `drawSprite` returns, and
afterwards every pixel `(c, r)` of the 64x32 display (bit `7 - c mod 8` of unit
`r * 8 + c / 8`) is its previous value XOR bit `7 - j` of `s_k` when
`k = (r - Vy mod 32) mod 32 < n` and `j = (c - Vx mod 64) mod 64 < 8`, and is
unchanged otherwise. -/
theorem C3_drawSprite_pixels (s : Chip8ReferenceVm) (vx vy n : Nat)
    (_hvx : vx < 256) (_hvy : vy < 256) (hn : n ≤ 15) (hi : s.i + n ≤ RAM_SIZE)
    (hbytes : ∀ k, k < n → s.ram (s.i + k) < 256) :
    ∃ s', drawSprite s vx vy n = Except.ok s' ∧
      ∀ c r, c < 64 → r < 32 →
        pixel s'.display c r =
          xor (pixel s.display c r)
            (decide ((r + 32 - vy % 32) % 32 < n) &&
              (decide ((c + 64 - vx % 64) % 64 < 8) &&
                (s.ram (s.i + (r + 32 - vy % 32) % 32)).testBit
                  (7 - (c + 64 - vx % 64) % 64))) := by
  obtain ⟨s', hok, -, -, hd⟩ := drawSprite_spec s vx vy n hi
  refine ⟨s', hok, ?_⟩
  intro c r hc hr
  have hp : c % 8 < 8 := Nat.mod_lt _ (by decide)
  have hq : c / 8 < 8 := by omega
  have hmem : ∀ sd ∈ spriteData s n, sd < 256 := by
    intro sd hsd
    simp only [spriteData, List.mem_map, List.mem_range] at hsd
    obtain ⟨k, hk, rfl⟩ := hsd
    exact hbytes k hk
  have hcc : 8 * (c / 8) + c % 8 + 64 - (8 * (vx % 64 / 8) + vx % 64 % 8)
      = c + 64 - vx % 64 := by omega
  simp only [pixel, DISPLAY_WIDTH_UNITS, DISPLAY_WIDTH, Nat.reduceDiv,
    render_display_unit_eq _ _ hp, hd, Nat.testBit_xor, DISPLAY_HEIGHT]
  rw [spriteMask_testBit (vx % 64 / 8) (vx % 64 % 8) (by omega) (by omega) (spriteData s n)
    (vy % 32) (by omega) (by rw [spriteData_length]; omega) hmem (c / 8) r (c % 8) hq hr hp,
    spriteData_length, hcc]
  by_cases hk : (r + 32 - vy % 32) % 32 < n
  · rw [spriteData_getD s n _ hk]
  · simp [hk]

/-- C3 for a 2-line sprite at `(61, 31)` on a display whose unit `j` holds `j mod 256`. -/
theorem C3_drawSprite_pixels_witness :
    ∃ s', drawSprite
        (machineAt 0xD0 0x12 (fun _ => 0) (fun j => j % 256) (fun _ => 0xA5) 0x300)
        61 31 2 = Except.ok s' ∧
      ∀ c r, c < 64 → r < 32 →
        pixel s'.display c r =
          xor (pixel (fun j => j % 256) c r)
            (decide ((r + 32 - 31 % 32) % 32 < 2) &&
              (decide ((c + 64 - 61 % 64) % 64 < 8) &&
                ((machineAt 0xD0 0x12 (fun _ => 0) (fun j => j % 256) (fun _ => 0xA5) 0x300).ram
                    (0x300 + (r + 32 - 31 % 32) % 32)).testBit
                  (7 - (c + 64 - 61 % 64) % 64))) :=
  C3_drawSprite_pixels
    (machineAt 0xD0 0x12 (fun _ => 0) (fun j => j % 256) (fun _ => 0xA5) 0x300) 61 31 2
    (by decide) (by decide) (by decide) (by decide)
    (by
      intro k _
      simp only [machineAt, Function.update_apply]
      split_ifs <;> decide)

/-! ## Sprite drawing: the flag register -/

/-- C2, evaluation of the code at a failing input. On a blank display (no pixel lit)
the instruction `D011` with the sprite byte `0xFF` at `(0, 0)` leaves `VF = 1`,
although no lit pixel can have been turned off: the overflow unit (still 0) is
compared against the first shifted pattern `0xFF`. -/
theorem C2_draw_flag_failing_input :
    NextInstruction drawBlankInput (0xD0 + 0) (1 * 16 + 1) ∧
    (∀ c r, pixel drawBlankInput.display c r = false) ∧
    drawBlankInput.ram drawBlankInput.i = 0xFF ∧
    registerAfter 0xF (step 0 drawBlankInput) = some 1 := by
  refine ⟨⟨rfl, by decide, rfl, rfl⟩, ?_, rfl, ?_⟩
  · intro c r
    simp [pixel, render_display_unit, drawBlankInput, machineAt]
  · decide

/-- C9, evaluation of the code at a failing input. On a blank display the one-line
sprite `0x01` drawn at column 1, row 0 lights the pixel `(8, 0)`; drawing it again
turns that pixel off and blanks the display, yet leaves `VF = 0`: the first shifted
pattern `0x01 >> 1` is 0 and both flag tests use it. -/
theorem C9_draw_twice_flag_failing_input :
    drawTwiceInput.ram drawTwiceInput.i = 0x01 ∧
    (∀ j, drawTwiceInput.display j = 0) ∧
    (displayAfter (drawSprite drawTwiceInput 1 0 1)).map (fun d => pixel d 8 0) = some true ∧
    (displayAfter (drawSpriteTwice drawTwiceInput 1 0 1)).map (fun d => pixel d 8 0)
      = some false ∧
    registerAfter 0xF (drawSpriteTwice drawTwiceInput 1 0 1) = some 0 := by
  refine ⟨rfl, fun _ => rfl, ?_, ?_, ?_⟩
  · decide
  · decide
  · decide

/-! ## Waiting for a key -/

/-- A blocked engine ignores every call that is not a key press, but for the key
latch: state, registers, program counter, memory and pending request stay. -/
theorem applyEvent_blocked (e : Event) (s : Chip8ReferenceVm)
    (hs : s.state = State.Blocked) (he : e.isNoPress = true) :
    ∃ s', applyEvent e s = Except.ok s' ∧ s'.state = State.Blocked ∧ s'.v = s.v ∧
      s'.pc = s.pc ∧ s'.ram = s.ram ∧
      s'.keypress_target_register = s.keypress_target_register := by
  cases e with
  | step rnd =>
    refine ⟨s, ?_, hs, rfl, rfl, rfl, rfl⟩
    simp [applyEvent, step, isRunning, hs]
  | setKeyState key pressed =>
    simp only [Event.isNoPress, Bool.and_eq_true, Bool.not_eq_true', decide_eq_true_eq] at he
    obtain ⟨hp, hk⟩ := he
    subst hp
    refine ⟨{ s with keys := Function.update s.keys key false }, ?_, hs, rfl, rfl, rfl, rfl⟩
    simp [applyEvent, setKeyState, hk]
  | clearKeyState =>
    exact ⟨clearKeyState s, rfl, hs, rfl, rfl, rfl, rfl⟩

/-- The same for a sequence of such calls. -/
theorem applyEvents_blocked (events : List Event) :
    ∀ (s : Chip8ReferenceVm), s.state = State.Blocked →
      (∀ e ∈ events, e.isNoPress = true) →
      ∃ s', applyEvents events s = Except.ok s' ∧ s'.state = State.Blocked ∧ s'.v = s.v ∧
        s'.pc = s.pc ∧ s'.ram = s.ram ∧
        s'.keypress_target_register = s.keypress_target_register := by
  induction events with
  | nil =>
    intro s hs _
    exact ⟨s, rfl, hs, rfl, rfl, rfl, rfl⟩
  | cons e rest ih =>
    intro s hs hall
    obtain ⟨s1, h1, hs1, hv1, hpc1, hram1, hk1⟩ :=
      applyEvent_blocked e s hs (hall e (List.mem_cons_self e rest))
    obtain ⟨s2, h2, hs2, hv2, hpc2, hram2, hk2⟩ :=
      ih s1 hs1 (fun e1 he1 => hall e1 (List.mem_cons_of_mem e he1))
    refine ⟨s2, ?_, hs2, hv2.trans hv1, hpc2.trans hpc1, hram2.trans hram1, hk2.trans hk1⟩
    simp [applyEvents, h1, h2]

/-- C10. For every register index `x` and every running engine whose next instruction
is `FX0A`: the step returns an engine that is not running; after any sequence of
further `step()`, `setKeyState(k, false)` (`k` in 0..15) and `clearKeyState()` calls
it is still not running and all registers, `Vx` among them, are as before the `FX0A`;
the first `setKeyState(k, true)` with `k` in 0..15 then returns an engine in which
`Vx = k`, the pending request is cleared (`NO_KEY`), the state is `Running`, and the
program counter is just past the `FX0A` over unchanged memory, so that the next
`step()` fetches and executes the two bytes that follow the `FX0A` (when these lie
inside memory). -/
theorem C10_wait_for_key (rnd : Nat) (s : Chip8ReferenceVm) (x : Nat) (hx : x < 16)
    (h : NextInstruction s (0xF0 + x) 0x0A)
    (events : List Event) (hev : ∀ e ∈ events, e.isNoPress = true)
    (k : Nat) (hk : k < 16) :
    ∃ s1 s2 s3,
      step rnd s = Except.ok s1 ∧ s1.isRunning = false ∧ s1.v = s.v ∧
      applyEvents events s1 = Except.ok s2 ∧ s2.isRunning = false ∧ s2.v x = s.v x ∧
      setKeyState s2 k true = Except.ok s3 ∧
      s3.v x = k ∧ s3.keypress_target_register = NO_KEY ∧
      s3.isRunning = true ∧ s3.state = State.Running ∧
      s3.pc = s.pc + 2 ∧ s3.ram = s.ram ∧
      (∀ rnd1, s.pc + 4 ≤ RAM_SIZE →
        step rnd1 s3 = execute rnd1 { hi := s.ram (s.pc + 2), lo := s.ram (s.pc + 3) }
          { s3 with pc := s.pc + 4 }) := by
  have hfam : hi_nybble (0xF0 + x) = 15 := by rw [hi_nybble_eq]; omega
  have hX : getShortValueLo (0xF0 + x) = x := by rw [getShortValueLo_eq]; omega
  have hstep : step rnd s = Except.ok { s with
      pc := s.pc + 2, keypress_target_register := x, state := State.Blocked } := by
    rw [step_of_next rnd s _ _ h]
    simp [execute, hfam, executeMisc, hX]
  obtain ⟨s2, h2, hs2, hv2, hpc2, hram2, hk2⟩ := applyEvents_blocked events
    { s with pc := s.pc + 2, keypress_target_register := x, state := State.Blocked }
    rfl hev
  simp only at hv2 hpc2 hram2 hk2
  have hne : s2.keypress_target_register ≠ NO_KEY := by
    rw [hk2]; unfold NO_KEY; omega
  have hlt : s2.keypress_target_register < 16 := by rw [hk2]; exact hx
  have hkey : setKeyState s2 k true = Except.ok { s2 with
      v := Function.update s2.v s2.keypress_target_register (k % 256),
      keypress_target_register := NO_KEY,
      state := State.Running,
      keys := Function.update s2.keys k true } := by
    simp [setKeyState, hne, hlt, hk]
  refine ⟨_, s2, _, hstep, ?_, rfl, h2, ?_, ?_, hkey, ?_, rfl, ?_, rfl, hpc2, hram2, ?_⟩
  · simp [isRunning]
  · simp [isRunning, hs2]
  · rw [hv2]
  · show Function.update s2.v s2.keypress_target_register (k % 256) x = k
    rw [hk2]
    show Function.update s2.v x (k % 256) x = k
    rw [Function.update_same]
    omega
  · simp [isRunning]
  · intro rnd1 hpc4
    rw [step_of_next rnd1 _ (s.ram (s.pc + 2)) (s.ram (s.pc + 3))]
    · simp only [hpc2]
    · refine ⟨rfl, ?_, ?_, ?_⟩
      · simp only [hpc2]; omega
      · simp only [hpc2, hram2]
      · simp only [hpc2, hram2]

/-- C10 for the instruction `F30A` at `0x200`, followed by a further `step()`, the
release of key 4 and a `clearKeyState()`, then the press of key 7. -/
theorem C10_wait_for_key_witness :
    ∃ s1 s2 s3,
      step 0 (machineAt 0xF3 0x0A (fun _ => 9) (fun _ => 0) (fun _ => 0) 0) = Except.ok s1 ∧
      s1.isRunning = false ∧ s1.v = (fun _ => 9) ∧
      applyEvents [Event.step 1, Event.setKeyState 4 false, Event.clearKeyState] s1
        = Except.ok s2 ∧
      s2.isRunning = false ∧ s2.v 3 = 9 ∧
      setKeyState s2 7 true = Except.ok s3 ∧
      s3.v 3 = 7 ∧ s3.keypress_target_register = NO_KEY ∧
      s3.isRunning = true ∧ s3.state = State.Running ∧
      s3.pc = 0x200 + 2 ∧
      s3.ram = (machineAt 0xF3 0x0A (fun _ => 9) (fun _ => 0) (fun _ => 0) 0).ram ∧
      (∀ rnd1, 0x200 + 4 ≤ RAM_SIZE →
        step rnd1 s3 = execute rnd1
          { hi := (machineAt 0xF3 0x0A (fun _ => 9) (fun _ => 0) (fun _ => 0) 0).ram (0x200 + 2),
            lo := (machineAt 0xF3 0x0A (fun _ => 9) (fun _ => 0) (fun _ => 0) 0).ram (0x200 + 3) }
          { s3 with pc := 0x200 + 4 }) :=
  C10_wait_for_key 0 (machineAt 0xF3 0x0A (fun _ => 9) (fun _ => 0) (fun _ => 0) 0) 3
    (by decide) ⟨rfl, by decide, rfl, rfl⟩
    [Event.step 1, Event.setKeyState 4 false, Event.clearKeyState]
    (by decide) 7 (by decide)

/-! ## Engines that are not running -/

/-- C13. If the engine is not `Running` (it is `Blocked` or `Halted`), `step()`
returns the engine as it was (program counter, registers, memory, address register,
call stack, display, timers, key latch and state all unchanged), and `doFrame()`,
whatever the clock and the fuel, makes no call of `step()`, returns 0 and leaves the
engine as it was. -/
theorem C13_not_running_noop (s : Chip8ReferenceVm) (hs : s.state ≠ State.Running)
    (rnd : Nat) (elapsed : Nat → Bool) (rnds : Nat → Nat) (fuel : Nat) :
    step rnd s = Except.ok s ∧
    doFrame elapsed rnds fuel s =
      some (Except.ok { instructions_executed := 0, step_calls := 0, vm := s }) := by
  have hrun : s.isRunning = false := by simp [isRunning, hs]
  constructor
  · simp [step, hrun]
  · cases fuel <;> simp [doFrame, doFrameLoop, hrun]

/-- C13 for a blocked engine. -/
theorem C13_not_running_noop_witness :
    step 0 blockedInput = Except.ok blockedInput ∧
    doFrame (fun _ => false) (fun _ => 0) 5 blockedInput =
      some (Except.ok { instructions_executed := 0, step_calls := 0, vm := blockedInput }) :=
  C13_not_running_noop blockedInput (by decide) 0 (fun _ => false) (fun _ => 0) 5

/-! ## Calls and returns -/

/-- The 12-bit operand of an instruction whose first byte has low nibble `n`. -/
theorem getLongValue_eq (fam n lo : Nat) (hn : n < 16) (hlo : lo < 256) :
    getLongValue (fam * 16 + n) lo = n * 256 + lo := by
  unfold getLongValue
  rw [lo_nybble_eq]
  have h1 : (fam * 16 + n) % 16 = n := by omega
  rw [h1, Nat.and_comm]
  have h2 : (0xFFF : Nat) = 2 ^ 12 - 1 := rfl
  rw [h2, Nat.and_pow_two_sub_one_eq_mod, Nat.shiftLeft_eq]
  have h3 : n * 2 ^ 8 ||| lo = n * 2 ^ 8 + lo := by
    rw [Nat.mul_comm]
    exact (Nat.mul_add_lt_is_or hlo n).symm
  rw [h3]
  omega

/-- C17. For every running engine with an empty call stack whose next instruction is
`00EE`, `step()` returns the engine with the program counter advanced by 2 and
nothing else changed: the call stack is still empty, the state still `Running`,
registers, memory, address register and display are as before. -/
theorem C17_return_on_empty_stack (rnd : Nat) (s : Chip8ReferenceVm)
    (hstack : s.call_stack = []) (h : NextInstruction s 0x00 0xEE) :
    step rnd s = Except.ok { s with pc := s.pc + 2 } ∧
    ({ s with pc := s.pc + 2 } : Chip8ReferenceVm).call_stack = [] ∧
    ({ s with pc := s.pc + 2 } : Chip8ReferenceVm).state = State.Running := by
  refine ⟨?_, hstack, h.1⟩
  rw [step_of_next rnd s _ _ h]
  have hfam : hi_nybble 0x00 = 0 := by decide
  have hnnn : getLongValue 0x00 0xEE = 0x0EE := by decide
  simp [execute, hfam, hnnn, doReturn, hstack]

/-- C17 for the instruction `00EE` at `0x200` of an engine with an empty stack. -/
theorem C17_return_on_empty_stack_witness :
    step 0 returnInput = Except.ok { returnInput with pc := returnInput.pc + 2 } ∧
    ({ returnInput with pc := returnInput.pc + 2 } : Chip8ReferenceVm).call_stack = [] ∧
    ({ returnInput with pc := returnInput.pc + 2 } : Chip8ReferenceVm).state
      = State.Running :=
  C17_return_on_empty_stack 0 returnInput rfl ⟨rfl, by decide, rfl, rfl⟩

/-- C16. For every call address `A` (the program counter, `A + 2 <= 4096`), every
12-bit target `NNN` with `NNN + 2 <= 4096` and every call stack: if memory holds
`2NNN` at `A` and `00EE` at `NNN`, two calls of `step()` return and leave the program
counter at `A + 2` and the call stack as it was. -/
theorem C16_call_then_return (rnd1 rnd2 : Nat) (s : Chip8ReferenceVm) (nnn : Nat)
    (hnnn : nnn < 4096) (hin : nnn + 2 ≤ RAM_SIZE)
    (hcall : NextInstruction s (0x20 + nnn / 256) (nnn % 256))
    (hret0 : s.ram nnn = 0x00) (hret1 : s.ram (nnn + 1) = 0xEE) :
    ∃ s1 s2, step rnd1 s = Except.ok s1 ∧ step rnd2 s1 = Except.ok s2 ∧
      s2.pc = s.pc + 2 ∧ s2.call_stack = s.call_stack := by
  have hfam : hi_nybble (0x20 + nnn / 256) = 2 := by rw [hi_nybble_eq]; omega
  have hlong : getLongValue (0x20 + nnn / 256) (nnn % 256) = nnn := by
    have h := getLongValue_eq 2 (nnn / 256) (nnn % 256) (by omega) (by omega)
    have e : 2 * 16 + nnn / 256 = 0x20 + nnn / 256 := by omega
    rw [e] at h
    rw [h]
    omega
  have h1 : step rnd1 s = Except.ok { s with
      pc := nnn, call_stack := (s.pc + 2) :: s.call_stack } := by
    rw [step_of_next rnd1 s _ _ hcall]
    simp [execute, hfam, hlong, call, jump]
  have hnext : NextInstruction ({ s with
      pc := nnn, call_stack := (s.pc + 2) :: s.call_stack } : Chip8ReferenceVm) 0x00 0xEE :=
    ⟨hcall.1, hin, hret0, hret1⟩
  have h2 : step rnd2 { s with pc := nnn, call_stack := (s.pc + 2) :: s.call_stack } =
      Except.ok { s with pc := s.pc + 2 } := by
    rw [step_of_next rnd2 _ _ _ hnext]
    have hfam0 : hi_nybble 0x00 = 0 := by decide
    have hee : getLongValue 0x00 0xEE = 0x0EE := by decide
    simp [execute, hfam0, hee, doReturn]
  exact ⟨_, _, h1, h2, rfl, rfl⟩

/-- C16 for `2300` at `0x200` and `00EE` at `0x300`. -/
theorem C16_call_then_return_witness :
    ∃ s1 s2, step 0 callInput = Except.ok s1 ∧ step 0 s1 = Except.ok s2 ∧
      s2.pc = callInput.pc + 2 ∧ s2.call_stack = callInput.call_stack :=
  C16_call_then_return 0 0 callInput 0x300 (by decide) (by decide)
    ⟨rfl, by decide, rfl, rfl⟩ rfl rfl

/-! ## Memory instructions -/

/-- A step on an instruction of family F is `executeMisc` after the fetch. -/
theorem step_misc (rnd : Nat) (s : Chip8ReferenceVm) (x lo : Nat) (hx : x < 16)
    (h : NextInstruction s (0xF0 + x) lo) :
    step rnd s = executeMisc { hi := 0xF0 + x, lo := lo } { s with pc := s.pc + 2 } := by
  have hfam : hi_nybble (0xF0 + x) = 15 := by rw [hi_nybble_eq]; omega
  rw [step_of_next rnd s _ _ h]
  simp [execute, hfam]

/-- C20. For every 8-bit value in `Vx` and every address register value `I` with
`I + 3 <= 4096`, `FX33` returns with digits `d2`, `d1`, `d0` in `memory[I]`,
`memory[I+1]`, `memory[I+2]`, each in 0..9 and with `100*d2 + 10*d1 + d0 = Vx`; every
other memory cell and every register is unchanged and so is the address register. -/
theorem C20_bcd_FX33 (rnd : Nat) (s : Chip8ReferenceVm) (x : Nat) (hx : x < 16)
    (hv : s.v x < 256) (hi : s.i + 3 ≤ RAM_SIZE)
    (h : NextInstruction s (0xF0 + x) 0x33) :
    ∃ s', step rnd s = Except.ok s' ∧
      s'.ram s.i < 10 ∧ s'.ram (s.i + 1) < 10 ∧ s'.ram (s.i + 2) < 10 ∧
      100 * s'.ram s.i + 10 * s'.ram (s.i + 1) + s'.ram (s.i + 2) = s.v x ∧
      (∀ a, a ≠ s.i → a ≠ s.i + 1 → a ≠ s.i + 2 → s'.ram a = s.ram a) ∧
      s'.v = s.v ∧ s'.i = s.i := by
  have hX : getShortValueLo (0xF0 + x) = x := by rw [getShortValueLo_eq]; omega
  have hnf : ¬ (RAM_SIZE < s.i + 3) := by omega
  have hstep : step rnd s = Except.ok { s with
      pc := s.pc + 2,
      ram := Function.update (Function.update (Function.update s.ram s.i (s.v x / 100 % 10))
        (s.i + 1) (s.v x / 10 % 10)) (s.i + 2) (s.v x % 10) } := by
    rw [step_misc rnd s x _ hx h]
    simp [executeMisc, hX, getValue, hnf]
  refine ⟨_, hstep, ?_, ?_, ?_, ?_, ?_, rfl, rfl⟩
  · simp only [Function.update_apply]
    split_ifs <;> omega
  · simp only [Function.update_apply]
    split_ifs <;> omega
  · simp only [Function.update_apply]
    split_ifs <;> omega
  · simp only [Function.update_apply]
    split_ifs <;> omega
  · intro a h0 h1 h2
    simp [Function.update_apply, h0, h1, h2]

/-- C20 for `F233` with `V2 = 254` and `I = 0x300`. -/
theorem C20_bcd_FX33_witness :
    ∃ s', step 0 bcdInput = Except.ok s' ∧
      s'.ram bcdInput.i < 10 ∧ s'.ram (bcdInput.i + 1) < 10 ∧ s'.ram (bcdInput.i + 2) < 10 ∧
      100 * s'.ram bcdInput.i + 10 * s'.ram (bcdInput.i + 1) + s'.ram (bcdInput.i + 2)
        = bcdInput.v 2 ∧
      (∀ a, a ≠ bcdInput.i → a ≠ bcdInput.i + 1 → a ≠ bcdInput.i + 2 →
        s'.ram a = bcdInput.ram a) ∧
      s'.v = bcdInput.v ∧ s'.i = bcdInput.i :=
  C20_bcd_FX33 0 bcdInput 2 (by decide) (by decide) (by decide) ⟨rfl, by decide, rfl, rfl⟩

/-- The cells `std::copy` writes hold the source cells, the others are untouched. -/
theorem copyCells_apply (src dst : Nat → Nat) (srcOff dstOff n j : Nat) :
    copyCells src dst srcOff dstOff n j =
      if dstOff ≤ j ∧ j < dstOff + n then src (srcOff + (j - dstOff)) else dst j := by
  induction n with
  | zero =>
    have h : ¬ (dstOff ≤ j ∧ j < dstOff + 0) := by omega
    rw [if_neg h]
    rfl
  | succ n ih =>
    simp only [copyCells, Function.update_apply, ih]
    by_cases hj : j = dstOff + n
    · subst hj
      have h : dstOff ≤ dstOff + n ∧ dstOff + n < dstOff + (n + 1) := by omega
      simp [h]
    · by_cases h1 : dstOff ≤ j ∧ j < dstOff + n
      · have h2 : dstOff ≤ j ∧ j < dstOff + (n + 1) := by omega
        simp [hj, h1, h2]
      · have h2 : ¬ (dstOff ≤ j ∧ j < dstOff + (n + 1)) := by omega
        simp [hj, h1, h2]

/-- C19. For every register index `x` in 0..15 and every address register value `I`
with `I + x + 1 <= 4096`: `FX55` returns with `memory[I+k] = Vk` for every `k` in
0..x, no other memory cell and no register changed, and the address register at
`I + x + 1`; `FX65` returns with `Vk = memory[I+k]` for every `k` in 0..x, no register
above `x` and no memory cell changed, and the address register at `I + x + 1`. -/
theorem C19_block_store_load (rnd : Nat) (s : Chip8ReferenceVm) (x : Nat) (hx : x < 16)
    (hi : s.i + x + 1 ≤ RAM_SIZE) :
    (NextInstruction s (0xF0 + x) 0x55 →
      ∃ s', step rnd s = Except.ok s' ∧
        (∀ k, k ≤ x → s'.ram (s.i + k) = s.v k) ∧
        (∀ a, a < s.i ∨ s.i + x < a → s'.ram a = s.ram a) ∧
        s'.v = s.v ∧ s'.i = s.i + x + 1) ∧
    (NextInstruction s (0xF0 + x) 0x65 →
      ∃ s', step rnd s = Except.ok s' ∧
        (∀ k, k ≤ x → s'.v k = s.ram (s.i + k)) ∧
        (∀ r, x < r → s'.v r = s.v r) ∧
        s'.ram = s.ram ∧ s'.i = s.i + x + 1) := by
  have hX : getShortValueLo (0xF0 + x) = x := by rw [getShortValueLo_eq]; omega
  have hnf : ¬ (RAM_SIZE < s.i + (x + 1)) := by omega
  constructor
  · intro h
    have hstep : step rnd s = Except.ok { s with
        pc := s.pc + 2, ram := copyCells s.v s.ram 0 s.i (x + 1), i := s.i + (x + 1) } := by
      rw [step_misc rnd s x _ hx h]
      simp [executeMisc, hX, hnf, incrementAddressRegister]
    refine ⟨_, hstep, ?_, ?_, rfl, rfl⟩
    · intro k hk
      have hc : s.i ≤ s.i + k ∧ s.i + k < s.i + (x + 1) := by omega
      simp only [copyCells_apply, hc, and_self, if_true]
      congr 1
      omega
    · intro a ha
      have hc : ¬ (s.i ≤ a ∧ a < s.i + (x + 1)) := by omega
      simp only [copyCells_apply, hc, if_false]
  · intro h
    have hstep : step rnd s = Except.ok { s with
        pc := s.pc + 2, i := s.i + (x + 1), v := copyCells s.ram s.v s.i 0 (x + 1) } := by
      rw [step_misc rnd s x _ hx h]
      simp [executeMisc, hX, hnf, incrementAddressRegister]
    refine ⟨_, hstep, ?_, ?_, rfl, rfl⟩
    · intro k hk
      have hc : 0 ≤ k ∧ k < 0 + (x + 1) := by omega
      simp only [copyCells_apply, hc, and_self, if_true]
      congr 1
    · intro r hr
      have hc : ¬ (0 ≤ r ∧ r < 0 + (x + 1)) := by omega
      simp only [copyCells_apply, hc, if_false]

/-- C19 for `F255` and for `F265`, both with `I = 0x300`. -/
theorem C19_block_store_load_witness :
    (∃ s', step 0 storeInput = Except.ok s' ∧
        (∀ k, k ≤ 2 → s'.ram (storeInput.i + k) = storeInput.v k) ∧
        (∀ a, a < storeInput.i ∨ storeInput.i + 2 < a → s'.ram a = storeInput.ram a) ∧
        s'.v = storeInput.v ∧ s'.i = storeInput.i + 2 + 1) ∧
    (∃ s', step 0 loadInput = Except.ok s' ∧
        (∀ k, k ≤ 2 → s'.v k = loadInput.ram (loadInput.i + k)) ∧
        (∀ r, 2 < r → s'.v r = loadInput.v r) ∧
        s'.ram = loadInput.ram ∧ s'.i = loadInput.i + 2 + 1) :=
  ⟨(C19_block_store_load 0 storeInput 2 (by decide) (by decide)).1
      ⟨rfl, by decide, rfl, rfl⟩,
   (C19_block_store_load 0 loadInput 2 (by decide) (by decide)).2
      ⟨rfl, by decide, rfl, rfl⟩⟩

/-! ## Fetching past the end of memory -/

/-- C11, evaluation of the code at a failing input. The engine built from the 4-byte
program `6002 BFFF` is, after two steps, `Running` with the program counter at 4097,
where no instruction byte lies inside memory; the third step does not halt but reads
outside memory (a fault): `getInstruction` only compares the program counter with
`ram.cend()` for inequality. -/
theorem C11_fetch_out_of_bounds_failing_input :
    overrunRom.length ≤ 3584 ∧
    observeAfter (fun s => s.pc) (constructAndRun overrunRom [Event.step 0, Event.step 0])
      = some 4097 ∧
    observeAfter (fun s => s.state) (constructAndRun overrunRom [Event.step 0, Event.step 0])
      = some State.Running ∧
    faultAfter (constructAndRun overrunRom [Event.step 0, Event.step 0, Event.step 0])
      = some Fault.badAccess := by
  refine ⟨by decide, ?_, ?_, ?_⟩
  · decide
  · decide
  · decide

/-! ## Key tests -/

/-- A second fetch inside memory only moves the program counter. -/
theorem skip_of_in_bounds (s : Chip8ReferenceVm) (h : s.pc + 2 ≤ RAM_SIZE) :
    skip s = Except.ok { s with pc := s.pc + 2 } := by
  unfold RAM_SIZE at h
  have h1 : ¬ (4096 < s.pc) := by omega
  have h2 : s.pc ≠ 4096 := by omega
  have h3 : s.pc + 1 ≠ 4096 := by omega
  simp [skip, getInstruction, RAM_SIZE, h1, h2, h3]

/-- C18, counterexample. With `V0 = 16` (low nibble 0) the instruction `E09E` is the
next one and the step fails with `std::out_of_range` instead of testing key 0. -/
theorem C18_key_skip_counterexample :
    NextInstruction keyInput (0xE0 + 0) 0x9E ∧ keyInput.v 0 = 16 ∧
    step 0 keyInput = Except.error Fault.outOfRange := by
  refine ⟨⟨rfl, by decide, rfl, rfl⟩, rfl, ?_⟩
  rfl

/-- C18, amended. For every register index `x` and every key latch: when the value
`v` of `Vx` is in 0..15, `EX9E` skips the following instruction (calls `skip()`, which
leaves the program counter 4 past the instruction when that is inside memory) if and
only if latch bit `v` is set, `EXA1` if and only if it is clear, and neither faults;
when `v` is 16 or more both fail with `std::out_of_range`. -/
theorem C18_key_skip (rnd : Nat) (s : Chip8ReferenceVm) (x : Nat) (hx : x < 16) :
    (NextInstruction s (0xE0 + x) 0x9E →
      (s.v x < 16 → step rnd s =
        if s.keys (s.v x) then skip { s with pc := s.pc + 2 }
        else Except.ok { s with pc := s.pc + 2 }) ∧
      (16 ≤ s.v x → step rnd s = Except.error Fault.outOfRange)) ∧
    (NextInstruction s (0xE0 + x) 0xA1 →
      (s.v x < 16 → step rnd s =
        if s.keys (s.v x) then Except.ok { s with pc := s.pc + 2 }
        else skip { s with pc := s.pc + 2 }) ∧
      (16 ≤ s.v x → step rnd s = Except.error Fault.outOfRange)) ∧
    (s.pc + 4 ≤ RAM_SIZE →
      skip { s with pc := s.pc + 2 } = Except.ok { s with pc := s.pc + 4 }) := by
  have hfam : hi_nybble (0xE0 + x) = 14 := by rw [hi_nybble_eq]; omega
  have hX : getShortValueLo (0xE0 + x) = x := by rw [getShortValueLo_eq]; omega
  refine ⟨?_, ?_, ?_⟩
  · intro h
    rw [step_of_next rnd s _ _ h]
    constructor
    · intro hv
      simp only [execute, hfam, executeKey, hX, getValue, isKeyPressed, hv]
      by_cases hk : s.keys (s.v x) = true <;> simp [hk]
    · intro hv
      have hv1 : ¬ (s.v x < 16) := by omega
      simp [execute, hfam, executeKey, hX, getValue, isKeyPressed, hv1]
  · intro h
    rw [step_of_next rnd s _ _ h]
    constructor
    · intro hv
      simp only [execute, hfam, executeKey, hX, getValue, isKeyPressed, hv]
      by_cases hk : s.keys (s.v x) = true <;> simp [hk]
    · intro hv
      have hv1 : ¬ (s.v x < 16) := by omega
      simp [execute, hfam, executeKey, hX, getValue, isKeyPressed, hv1]
  · intro h
    exact skip_of_in_bounds { s with pc := s.pc + 2 } (by show s.pc + 2 + 2 ≤ RAM_SIZE; omega)

/-- C18, the amended statement for `E09E` and `E0A1` with `V0 = 5` and key 5 pressed. -/
theorem C18_key_skip_witness :
    step 0 (keyFiveInput 0xE0 0x9E) =
      Except.ok { keyFiveInput 0xE0 0x9E with pc := (keyFiveInput 0xE0 0x9E).pc + 4 } ∧
    step 0 (keyFiveInput 0xE0 0xA1) =
      Except.ok { keyFiveInput 0xE0 0xA1 with pc := (keyFiveInput 0xE0 0xA1).pc + 2 } :=
  ⟨((C18_key_skip 0 (keyFiveInput 0xE0 0x9E) 0 (by decide)).1
      ⟨rfl, by decide, rfl, rfl⟩).1 (by decide) |>.trans
      ((C18_key_skip 0 (keyFiveInput 0xE0 0x9E) 0 (by decide)).2.2 (by decide)),
   ((C18_key_skip 0 (keyFiveInput 0xE0 0xA1) 0 (by decide)).2.1
      ⟨rfl, by decide, rfl, rfl⟩).1 (by decide)⟩

/-! ## What no instruction touches -/

theorem okControlKept_ok (s t : Chip8ReferenceVm) (h : ControlKept s t) :
    OkControlKept s (Except.ok t) := by
  intro u hu
  cases hu
  exact h

theorem okControlKept_error (s : Chip8ReferenceVm) (f : Fault) :
    OkControlKept s (Except.error f) := by
  intro u hu
  cases hu

theorem okControlKept_ite (s : Chip8ReferenceVm) (c : Prop) [Decidable c]
    (a b : Except Fault Chip8ReferenceVm)
    (ha : OkControlKept s a) (hb : OkControlKept s b) :
    OkControlKept s (if c then a else b) := by
  by_cases hc : c
  · rw [if_pos hc]; exact ha
  · rw [if_neg hc]; exact hb

/-- A fetch leaves the speed budget and the pending key request alone. -/
theorem getInstruction_control (s s1 : Chip8ReferenceVm) (ins : Instruction)
    (h : getInstruction s = Except.ok (ins, s1)) :
    s1.frame_limit = s.frame_limit ∧
    s1.keypress_target_register = s.keypress_target_register := by
  unfold getInstruction at h
  by_cases h0 : RAM_SIZE < s.pc
  · simp [h0] at h
  · by_cases h1 : s.pc = RAM_SIZE
    · simp [h0, h1] at h
      obtain ⟨-, rfl⟩ := h
      exact ⟨rfl, rfl⟩
    · by_cases h2 : s.pc + 1 = RAM_SIZE
      · simp [h0, h1, h2] at h
        obtain ⟨-, rfl⟩ := h
        exact ⟨rfl, rfl⟩
      · simp [h0, h1, h2] at h
        obtain ⟨-, rfl⟩ := h
        exact ⟨rfl, rfl⟩

/-- So does `skip`. -/
theorem skip_control (s : Chip8ReferenceVm) : OkControlKept s (skip s) := by
  intro t h
  unfold skip at h
  split at h
  · cases h
  · rename_i ins s2 heq
    cases h
    obtain ⟨h1, h2⟩ := getInstruction_control s t ins heq
    exact ⟨h1, Or.inl h2⟩

/-- So does the loop of `drawSprite`. -/
theorem drawSpriteLines_control (col sub : Nat) (sprite : List Nat) :
    ∀ (row : Nat) (s : Chip8ReferenceVm),
      (drawSpriteLines col sub sprite row s).frame_limit = s.frame_limit ∧
      (drawSpriteLines col sub sprite row s).keypress_target_register
        = s.keypress_target_register := by
  induction sprite with
  | nil => intro row s; exact ⟨rfl, rfl⟩
  | cons sd rest ih =>
    intro row s
    simp only [drawSpriteLines]
    obtain ⟨h1, h2⟩ := ih ((row + 1) % DISPLAY_HEIGHT) (drawSpriteLine col sub row sd s)
    rw [h1, h2]
    exact ⟨rfl, rfl⟩

/-- So does `drawSprite`. -/
theorem drawSprite_control (s : Chip8ReferenceVm) (x y n : Nat) :
    OkControlKept s (drawSprite s x y n) := by
  unfold drawSprite
  apply okControlKept_ite
  · exact okControlKept_error _ _
  · apply okControlKept_ok
    obtain ⟨h1, h2⟩ := drawSpriteLines_control (x % DISPLAY_WIDTH / 8) (x % DISPLAY_WIDTH % 8)
      (spriteData { s with v := Function.update s.v 0xF 0 } n) (y % DISPLAY_HEIGHT)
      { s with v := Function.update s.v 0xF 0 }
    exact ⟨h1, Or.inl h2⟩

/-- So do the register to register operations. -/
theorem executeAlu_control (ins : Instruction) (s : Chip8ReferenceVm) :
    ControlKept s (executeAlu ins s) := by
  unfold executeAlu
  simp only
  split_ifs <;> exact ⟨rfl, Or.inl rfl⟩

/-- So do the key tests. -/
theorem executeKey_control (ins : Instruction) (s : Chip8ReferenceVm) :
    OkControlKept s (executeKey ins s) := by
  unfold executeKey isKeyPressed
  apply okControlKept_ite
  · by_cases hx : getValue (s.v (getShortValueLo ins.hi)) < 16
    · rw [if_pos hx]
      exact okControlKept_ite _ _ _ _ (skip_control s) (okControlKept_ok _ _ ⟨rfl, Or.inl rfl⟩)
    · rw [if_neg hx]
      exact okControlKept_error _ _
  · apply okControlKept_ite
    · by_cases hx : getValue (s.v (getShortValueLo ins.hi)) < 16
      · rw [if_pos hx]
        exact okControlKept_ite _ _ _ _ (skip_control s)
          (okControlKept_ok _ _ ⟨rfl, Or.inl rfl⟩)
      · rw [if_neg hx]
        exact okControlKept_error _ _
    · exact okControlKept_ok _ _ ⟨rfl, Or.inl rfl⟩

/-- The instructions of family F leave the speed budget alone, and the pending key
request too unless they block the engine. -/
theorem executeMisc_control (ins : Instruction) (s : Chip8ReferenceVm) :
    OkControlKept s (executeMisc ins s) := by
  unfold executeMisc
  repeat' first
    | exact okControlKept_error _ _
    | exact okControlKept_ok _ _ ⟨rfl, Or.inl rfl⟩
    | exact okControlKept_ok _ _ ⟨rfl, Or.inr rfl⟩
    | apply okControlKept_ite

/-- The switch leaves the speed budget alone, and the pending key request too unless
it blocks the engine. -/
theorem execute_control (rnd : Nat) (ins : Instruction) (s : Chip8ReferenceVm) :
    OkControlKept s (execute rnd ins s) := by
  unfold execute
  repeat' first
    | exact skip_control s
    | exact drawSprite_control s _ _ _
    | exact executeKey_control ins s
    | exact executeMisc_control ins s
    | exact okControlKept_error _ _
    | exact okControlKept_ok _ _ (executeAlu_control ins s)
    | exact okControlKept_ok _ _ ⟨rfl, Or.inl rfl⟩
    | (apply okControlKept_ok; unfold doReturn; split <;> exact ⟨rfl, Or.inl rfl⟩)
    | apply okControlKept_ite

/-- A step leaves the speed budget alone, and the pending key request too unless it
blocks the engine. -/
theorem step_control (rnd : Nat) (s s1 : Chip8ReferenceVm)
    (h : step rnd s = Except.ok s1) : ControlKept s s1 := by
  unfold step at h
  split_ifs at h
  · cases h; exact ⟨rfl, Or.inl rfl⟩
  · split at h
    · cases h
    · rename_i ins s2 heq
      obtain ⟨hf, hk⟩ := getInstruction_control s s2 ins heq
      obtain ⟨hf2, hk2⟩ := execute_control rnd ins s2 s1 h
      refine ⟨hf2.trans hf, ?_⟩
      rcases hk2 with hk2 | hb
      · exact Or.inl (hk2.trans hk)
      · exact Or.inr hb

/-! ## Frames -/

/-- The loop of `doFrame` ends at once when its condition fails. -/
theorem doFrameLoop_exit (elapsed : Nat → Bool) (rnds : Nat → Nat)
    (fuel n c : Nat) (s : Chip8ReferenceVm)
    (hc : (s.isRunning && (s.frame_limit == 0 || decide (n < s.frame_limit))) = false) :
    doFrameLoop elapsed rnds fuel n c s =
      some (Except.ok { instructions_executed := n, step_calls := c, vm := s }) := by
  cases fuel <;> simp only [doFrameLoop, hc] <;> rfl

/-- One turn of the loop of `doFrame` when its condition holds. -/
theorem doFrameLoop_turn (elapsed : Nat → Bool) (rnds : Nat → Nat)
    (fuel n c : Nat) (s : Chip8ReferenceVm)
    (hc : (s.isRunning && (s.frame_limit == 0 || decide (n < s.frame_limit))) = true) :
    doFrameLoop elapsed rnds (fuel + 1) n c s =
      match step (rnds c) s with
      | Except.error f => some (Except.error f)
      | Except.ok s1 =>
        if elapsed (c + 1) && decide ((n + 1) % 2 ^ ULONG_BITS > 0) then
          some (Except.ok { instructions_executed := (n + 1) % 2 ^ ULONG_BITS,
                            step_calls := c + 1, vm := s1 })
        else doFrameLoop elapsed rnds fuel ((n + 1) % 2 ^ ULONG_BITS) (c + 1) s1 := by
  simp only [doFrameLoop, hc, if_true]

/-- With a budget `N > 0` the loop of `doFrame`, entered with both counters equal and
at most `N`, ends within `N` more turns; if no step faults it hands back a count that
is at most `N` and equals the number of calls of `step()`. -/
theorem doFrameLoop_bounded (elapsed : Nat → Bool) (rnds : Nat → Nat) (N : Nat)
    (hN : 0 < N) (hN2 : N < 2 ^ ULONG_BITS) :
    ∀ (fuel n : Nat) (s : Chip8ReferenceVm), s.frame_limit = N → n ≤ N → N - n ≤ fuel →
      ∃ r, doFrameLoop elapsed rnds fuel n n s = some r ∧
        ∀ res, r = Except.ok res →
          res.instructions_executed ≤ N ∧ res.step_calls = res.instructions_executed := by
  have hN0 : (N == 0) = false := by
    rw [beq_eq_false_iff_ne]
    omega
  have hexit : ∀ (fuel n : Nat) (s : Chip8ReferenceVm), n ≤ N →
      (s.isRunning && (s.frame_limit == 0 || decide (n < s.frame_limit))) = false →
      ∃ r, doFrameLoop elapsed rnds fuel n n s = some r ∧
        ∀ res, r = Except.ok res →
          res.instructions_executed ≤ N ∧ res.step_calls = res.instructions_executed := by
    intro fuel n s hn hc
    refine ⟨_, doFrameLoop_exit elapsed rnds fuel n n s hc, ?_⟩
    intro res hres
    cases hres
    exact ⟨hn, rfl⟩
  intro fuel
  induction fuel with
  | zero =>
    intro n s hlim hn hfuel
    apply hexit 0 n s hn
    have hnN : ¬ (n < N) := by omega
    simp [hlim, hN0, hnN]
  | succ fuel ih =>
    intro n s hlim hn hfuel
    by_cases hc : (s.isRunning &&
        (s.frame_limit == 0 || decide (n < s.frame_limit))) = true
    · have hnN : n < N := by
        rw [hlim] at hc
        simp only [hN0, Bool.false_or, Bool.and_eq_true, decide_eq_true_eq] at hc
        exact hc.2
      have hmod : (n + 1) % 2 ^ ULONG_BITS = n + 1 := Nat.mod_eq_of_lt (by omega)
      rw [doFrameLoop_turn elapsed rnds fuel n n s hc, hmod]
      cases hstep : step (rnds n) s with
      | error f =>
        refine ⟨_, rfl, ?_⟩
        intro res hres
        cases hres
      | ok s1 =>
        simp only
        by_cases he : (elapsed (n + 1) && decide (n + 1 > 0)) = true
        · rw [if_pos he]
          refine ⟨_, rfl, ?_⟩
          intro res hres
          cases hres
          exact ⟨hnN, rfl⟩
        · rw [if_neg he]
          exact ih (n + 1) s1 ((step_control _ s s1 hstep).1.trans hlim) hnN (by omega)
    · exact hexit (fuel + 1) n s hn (by simpa using hc)

/-- C14, counterexample. With a budget of 5, on the engine whose next instruction is
`E09E` with `V0 = 16`, `doFrame()` returns no count: the first `step()` raises
`std::out_of_range`, which `doFrame` lets through. -/
theorem C14_doFrame_count_counterexample :
    doFrame (fun _ => false) (fun _ => 0) 5 (setEmulationSpeed keyInput 5) =
      some (Except.error Fault.outOfRange) := by
  rfl

/-- C14, amended. For every budget `N > 0`, every engine and every behaviour of the
clock, `doFrame()` ends after at most `N` turns of its loop and, unless a call of
`step()` faults, returns a count that is at most `N` and equals the number of calls
of `step()` it made. -/
theorem C14_doFrame_count (N : Nat) (hN : 0 < N) (hN2 : N < 2 ^ ULONG_BITS)
    (s : Chip8ReferenceVm) (elapsed : Nat → Bool) (rnds : Nat → Nat)
    (fuel : Nat) (hfuel : N ≤ fuel) :
    ∃ r, doFrame elapsed rnds fuel (setEmulationSpeed s N) = some r ∧
      ∀ res, r = Except.ok res →
        res.instructions_executed ≤ N ∧ res.step_calls = res.instructions_executed :=
  doFrameLoop_bounded elapsed rnds N hN hN2 fuel 0 (setEmulationSpeed s N) rfl
    (Nat.zero_le N) (by omega)

/-- C14, the amended statement for a budget of 3 on the engine that jumps to itself. -/
theorem C14_doFrame_count_witness :
    ∃ r, doFrame (fun _ => false) (fun _ => 0) 3
        (setEmulationSpeed (machineAt 0x12 0x00 (fun _ => 0) (fun _ => 0) (fun _ => 0) 0) 3)
        = some r ∧
      ∀ res, r = Except.ok res →
        res.instructions_executed ≤ 3 ∧ res.step_calls = res.instructions_executed :=
  C14_doFrame_count 3 (by decide) (by decide)
    (machineAt 0x12 0x00 (fun _ => 0) (fun _ => 0) (fun _ => 0) 0)
    (fun _ => false) (fun _ => 0) 3 (by decide)

/-- On an engine that every step leaves as it is, running with a budget `N` and a
clock that does not elapse before the budget is used, the loop of `doFrame` entered
with both counters at `n` makes `N - n` further calls and hands back `N`. -/
theorem doFrameLoop_fixed (elapsed : Nat → Bool) (rnds : Nat → Nat) (N : Nat)
    (hN2 : N < 2 ^ ULONG_BITS) (s : Chip8ReferenceVm)
    (hrun : s.isRunning = true) (hlim : s.frame_limit = N) (hN : 0 < N)
    (hfix : ∀ rnd, step rnd s = Except.ok s)
    (hclock : ∀ k, k < N → elapsed k = false) :
    ∀ (fuel n : Nat), n ≤ N → N - n ≤ fuel →
      doFrameLoop elapsed rnds fuel n n s =
        some (Except.ok { instructions_executed := N, step_calls := N, vm := s }) := by
  have hN0 : (N == 0) = false := by
    rw [beq_eq_false_iff_ne]
    omega
  have hexit : ∀ fuel, doFrameLoop elapsed rnds fuel N N s =
      some (Except.ok { instructions_executed := N, step_calls := N, vm := s }) := by
    intro fuel
    apply doFrameLoop_exit
    simp [hlim, hN0]
  intro fuel
  induction fuel with
  | zero =>
    intro n hn hfuel
    have hnN : n = N := by omega
    rw [hnN]
    exact hexit 0
  | succ fuel ih =>
    intro n hn hfuel
    by_cases hnN : n = N
    · rw [hnN]
      exact hexit (fuel + 1)
    · have hlt : n < N := by omega
      have hc : (s.isRunning && (s.frame_limit == 0 || decide (n < s.frame_limit))) = true := by
        simp [hrun, hlim, hlt]
      have hmod : (n + 1) % 2 ^ ULONG_BITS = n + 1 := Nat.mod_eq_of_lt (by omega)
      rw [doFrameLoop_turn elapsed rnds fuel n n s hc, hmod, hfix]
      simp only
      by_cases he : n + 1 = N
      · by_cases hel : (elapsed (n + 1) && decide (n + 1 > 0)) = true
        · rw [if_pos hel, he]
        · rw [if_neg hel, he]
          exact hexit fuel
      · have hel : ¬ ((elapsed (n + 1) && decide (n + 1 > 0)) = true) := by
          rw [hclock (n + 1) (by omega)]
          simp
        rw [if_neg hel]
        exact ih (n + 1) (by omega) (by omega)

/-- C15. The engine constructed from the 2-byte program `12 00`, whatever memory and
display held before, with the budget set to 1000: if the clock does not elapse before
the 1000th call, `doFrame()` makes exactly 1000 calls of `step()`, returns 1000, and
leaves the program counter at `0x200` with the engine still `Running` (indeed the
engine is as it was before the frame). -/
theorem C15_jump_to_self_frame (ram display : Nat → Nat) (elapsed : Nat → Bool)
    (rnds : Nat → Nat) (fuel : Nat)
    (hclock : ∀ k, k < 1000 → elapsed k = false) (hfuel : 1000 ≤ fuel) :
    ∃ s0 res, construct ram display [0x12, 0x00] = Except.ok s0 ∧
      doFrame elapsed rnds fuel (setEmulationSpeed s0 1000) = some (Except.ok res) ∧
      res.instructions_executed = 1000 ∧ res.step_calls = 1000 ∧
      res.vm.pc = 0x200 ∧ res.vm.state = State.Running ∧
      res.vm = setEmulationSpeed s0 1000 := by
  have key : ∃ s0, construct ram display [0x12, 0x00] = Except.ok s0 ∧
      s0.pc = 0x200 ∧ s0.state = State.Running ∧
      s0.ram 0x200 = 0x12 ∧ s0.ram 0x201 = 0x00 := by
    have hfit : ¬ (RAM_SIZE < 0x200 + [0x12, 0x00].length) := by decide
    have hcons : construct ram display [0x12, 0x00] = Except.ok
        { ram := loadBytes [0x12, 0x00] (loadBytes font ram 0x50) 0x200
          pc := 0x200
          call_stack := []
          i := 0
          v := fun _ => 0
          delay := 0
          sound := 0
          frame_limit := 0
          keys := fun _ => false
          display := display
          state := State.Running
          keypress_target_register := NO_KEY } := by
      simp only [construct, hfit, if_false]
    refine ⟨_, hcons, rfl, rfl, ?_, ?_⟩
    · simp [loadBytes, Function.update_apply]
    · simp [loadBytes, Function.update_apply]
  obtain ⟨s0, hcons, hpc, hst, h0, h1⟩ := key
  have hnext : NextInstruction (setEmulationSpeed s0 1000) 0x12 0x00 := by
    refine ⟨hst, ?_, ?_, ?_⟩
    · show s0.pc + 2 ≤ RAM_SIZE
      rw [hpc]
      decide
    · show s0.ram s0.pc = 0x12
      rw [hpc, h0]
    · show s0.ram (s0.pc + 1) = 0x00
      rw [hpc, h1]
  have hfix : ∀ rnd, step rnd (setEmulationSpeed s0 1000) =
      Except.ok (setEmulationSpeed s0 1000) := by
    intro rnd
    rw [step_of_next rnd _ _ _ hnext]
    have hfam : hi_nybble 0x12 = 1 := by decide
    have hnnn : getLongValue 0x12 0x00 = 0x200 := by decide
    simp only [execute, hfam, hnnn]
    cases s0
    simp only at hpc
    subst hpc
    rfl
  have hrun : (setEmulationSpeed s0 1000).isRunning = true := by
    simp [isRunning, setEmulationSpeed, hst]
  refine ⟨s0, FrameResult.mk 1000 1000 (setEmulationSpeed s0 1000), hcons, ?_, rfl, rfl,
    hpc, hst, rfl⟩
  exact doFrameLoop_fixed elapsed rnds 1000 (by decide) (setEmulationSpeed s0 1000) hrun rfl
    (by decide) hfix hclock fuel 0 (by decide) (by omega)

/-- C15 over zeroed memory and display, with a clock that never elapses. -/
theorem C15_jump_to_self_frame_witness :
    ∃ s0 res, construct (fun _ => 0) (fun _ => 0) [0x12, 0x00] = Except.ok s0 ∧
      doFrame (fun _ => false) (fun _ => 0) 1000 (setEmulationSpeed s0 1000)
        = some (Except.ok res) ∧
      res.instructions_executed = 1000 ∧ res.step_calls = 1000 ∧
      res.vm.pc = 0x200 ∧ res.vm.state = State.Running ∧
      res.vm = setEmulationSpeed s0 1000 :=
  C15_jump_to_self_frame (fun _ => 0) (fun _ => 0) (fun _ => false) (fun _ => 0) 1000
    (fun _ _ => rfl) (by decide)

/-! ## The halted state -/

/-- An engine that is not running is left as it is by `step()` and by `doFrame()`,
which makes no call and returns 0. -/
theorem idle_step_doFrame (s : Chip8ReferenceVm) (hs : s.state ≠ State.Running)
    (rnd : Nat) (elapsed : Nat → Bool) (rnds : Nat → Nat) (fuel : Nat) :
    step rnd s = Except.ok s ∧
    doFrame elapsed rnds fuel s =
      some (Except.ok { instructions_executed := 0, step_calls := 0, vm := s }) := by
  have hrun : s.isRunning = false := by simp [isRunning, hs]
  constructor
  · simp [step, hrun]
  · exact doFrameLoop_exit elapsed rnds fuel 0 0 s (by simp [hrun])

/-- A step keeps `KeyRequestInv`. -/
theorem step_keyRequestInv (rnd : Nat) (s t : Chip8ReferenceVm)
    (hinv : KeyRequestInv s) (h : step rnd s = Except.ok t) : KeyRequestInv t := by
  by_cases hk : s.keypress_target_register = NO_KEY
  · obtain ⟨-, hc⟩ := step_control rnd s t h
    intro hne
    rcases hc with hc | hc
    · exact absurd (hc.trans hk) hne
    · exact hc
  · have hb : s.state = State.Blocked := hinv hk
    have hst : step rnd s = Except.ok s := by simp [step, isRunning, hb]
    rw [hst] at h
    cases h
    exact hinv

/-- The loop of `doFrame` keeps `KeyRequestInv`. -/
theorem doFrameLoop_keyRequestInv (elapsed : Nat → Bool) (rnds : Nat → Nat) :
    ∀ (fuel n c : Nat) (s : Chip8ReferenceVm) (r : FrameResult), KeyRequestInv s →
      doFrameLoop elapsed rnds fuel n c s = some (Except.ok r) → KeyRequestInv r.vm := by
  intro fuel
  induction fuel with
  | zero =>
    intro n c s r hinv h
    by_cases hc : (s.isRunning &&
        (s.frame_limit == 0 || decide (n < s.frame_limit))) = true
    · simp [doFrameLoop, hc] at h
    · rw [doFrameLoop_exit elapsed rnds 0 n c s (by simpa using hc)] at h
      cases h
      exact hinv
  | succ fuel ih =>
    intro n c s r hinv h
    by_cases hc : (s.isRunning &&
        (s.frame_limit == 0 || decide (n < s.frame_limit))) = true
    · rw [doFrameLoop_turn elapsed rnds fuel n c s hc] at h
      cases hstep : step (rnds c) s with
      | error f =>
        rw [hstep] at h
        cases h
      | ok s1 =>
        rw [hstep] at h
        simp only at h
        have hinv1 := step_keyRequestInv _ s s1 hinv hstep
        by_cases he : (elapsed (c + 1) && decide ((n + 1) % 2 ^ ULONG_BITS > 0)) = true
        · rw [if_pos he] at h
          cases h
          exact hinv1
        · rw [if_neg he] at h
          exact ih _ _ s1 r hinv1 h
    · rw [doFrameLoop_exit elapsed rnds (fuel + 1) n c s (by simpa using hc)] at h
      cases h
      exact hinv

/-- The key setter keeps `KeyRequestInv`. -/
theorem setKeyState_keyRequestInv (s t : Chip8ReferenceVm) (key : Nat) (pressed : Bool)
    (hinv : KeyRequestInv s) (h : setKeyState s key pressed = Except.ok t) :
    KeyRequestInv t := by
  unfold setKeyState at h
  by_cases hp : pressed = true
  · rw [if_pos hp] at h
    by_cases hk : s.keypress_target_register ≠ NO_KEY
    · rw [if_pos hk] at h
      by_cases hlt : s.keypress_target_register < 16
      · rw [if_pos hlt] at h
        by_cases hkey : key < 16
        · simp only [hkey, if_true] at h
          cases h
          intro hne
          exact absurd rfl hne
        · simp only [hkey, if_false] at h
          cases h
      · rw [if_neg hlt] at h
        cases h
    · rw [if_neg hk] at h
      by_cases hkey : key < 16
      · rw [if_pos hkey] at h
        cases h
        exact hinv
      · rw [if_neg hkey] at h
        cases h
  · rw [if_neg hp] at h
    by_cases hkey : key < 16
    · rw [if_pos hkey] at h
      cases h
      exact hinv
    · rw [if_neg hkey] at h
      cases h

/-- Every engine had from a constructed one has a key request pending only while it
is blocked. -/
theorem reaches_keyRequestInv (s t : Chip8ReferenceVm) (hinv : KeyRequestInv s)
    (h : Reaches s t) : KeyRequestInv t := by
  induction h with
  | refl => exact hinv
  | step rnd t u _ hstep ih => exact step_keyRequestInv rnd t u ih hstep
  | doFrame elapsed rnds fuel t r _ hframe ih =>
    exact doFrameLoop_keyRequestInv elapsed rnds fuel 0 0 t r ih hframe
  | setKeyState key pressed t u _ hset ih =>
    exact setKeyState_keyRequestInv t u key pressed ih hset
  | clearKeyState t _ ih => exact ih

/-- A halted engine with no key request pending stays so under every call. -/
theorem reaches_halted (s t : Chip8ReferenceVm) (hs : s.state = State.Halted)
    (hk : s.keypress_target_register = NO_KEY) (h : Reaches s t) :
    t.state = State.Halted ∧ t.keypress_target_register = NO_KEY := by
  induction h with
  | refl => exact ⟨hs, hk⟩
  | step rnd t u _ hstep ih =>
    have hst : step rnd t = Except.ok t := by simp [step, isRunning, ih.1]
    rw [hst] at hstep
    cases hstep
    exact ih
  | doFrame elapsed rnds fuel t r _ hframe ih =>
    have hne : t.state ≠ State.Running := by rw [ih.1]; decide
    rw [(idle_step_doFrame t hne 0 elapsed rnds fuel).2] at hframe
    cases hframe
    exact ih
  | setKeyState key pressed t u _ hset ih =>
    unfold setKeyState at hset
    have hnk : ¬ (t.keypress_target_register ≠ NO_KEY) := by simp [ih.2]
    by_cases hp : pressed = true
    · rw [if_pos hp, if_neg hnk] at hset
      by_cases hkey : key < 16
      · rw [if_pos hkey] at hset
        cases hset
        exact ih
      · rw [if_neg hkey] at hset
        cases hset
    · rw [if_neg hp] at hset
      by_cases hkey : key < 16
      · rw [if_pos hkey] at hset
        cases hset
        exact ih
      · rw [if_neg hkey] at hset
        cases hset
  | clearKeyState t _ ih => exact ih

/-- C12. In every execution from a constructed engine, once the engine is `Halted`
every further call of `step()`, `doFrame()`, `setKeyState(k, pressed)` or
`clearKeyState()` that returns leaves it `Halted` (`isLive()` false); and on such an
engine `step()` and `doFrame()` return without effect, and `setKeyState(k, pressed)`
with `k` in 0..15 and `clearKeyState()` return a `Halted` engine. -/
theorem C12_halted_terminal (ram display : Nat → Nat) (rom : List Nat)
    (s0 s t : Chip8ReferenceVm)
    (h0 : construct ram display rom = Except.ok s0)
    (hs : Reaches s0 s) (hh : s.state = State.Halted) (ht : Reaches s t) :
    t.state = State.Halted ∧ t.isLive = false ∧
    (∀ rnd, step rnd t = Except.ok t) ∧
    (∀ elapsed rnds fuel, doFrame elapsed rnds fuel t =
      some (Except.ok { instructions_executed := 0, step_calls := 0, vm := t })) ∧
    (∀ k pressed, k < 16 →
      ∃ u, setKeyState t k pressed = Except.ok u ∧ u.state = State.Halted) ∧
    (clearKeyState t).state = State.Halted := by
  have hinv0 : KeyRequestInv s0 := by
    unfold construct at h0
    split_ifs at h0
    cases h0
    intro hne
    exact absurd rfl hne
  have hinv : KeyRequestInv s := reaches_keyRequestInv s0 s hinv0 hs
  have hk : s.keypress_target_register = NO_KEY := by
    by_contra hne
    have hb := hinv hne
    rw [hh] at hb
    cases hb
  obtain ⟨hth, htk⟩ := reaches_halted s t hh hk ht
  have hne : t.state ≠ State.Running := by rw [hth]; decide
  refine ⟨hth, by simp [isLive, hth], ?_, ?_, ?_, hth⟩
  · intro rnd
    exact (idle_step_doFrame t hne rnd (fun _ => false) (fun _ => 0) 0).1
  · intro elapsed rnds fuel
    exact (idle_step_doFrame t hne 0 elapsed rnds fuel).2
  · intro k pressed hk16
    have hnk : ¬ (t.keypress_target_register ≠ NO_KEY) := by simp [htk]
    by_cases hp : pressed = true
    · refine ⟨{ t with keys := Function.update t.keys k true }, ?_, hth⟩
      simp [setKeyState, hp, htk, hk16]
    · refine ⟨{ t with keys := Function.update t.keys k false }, ?_, hth⟩
      simp [setKeyState, hp, hk16]

/-- C12 for the engine built from the program `1FFF`: the second step halts it, and
it is still halted after a `clearKeyState()` and the press of key 3. -/
theorem C12_halted_terminal_witness :
    (haltEngine 2).state = State.Halted ∧
    (engineAfter blockedInput (setKeyState (clearKeyState (haltEngine 2)) 3 true)).state
      = State.Halted :=
  ⟨rfl,
   (C12_halted_terminal (fun _ => 0) (fun _ => 0) haltRom (haltEngine 0) (haltEngine 2)
      (engineAfter blockedInput (setKeyState (clearKeyState (haltEngine 2)) 3 true))
      rfl
      (Reaches.step 0 (haltEngine 1) (haltEngine 2)
        (Reaches.step 0 (haltEngine 0) (haltEngine 1) Reaches.refl rfl) rfl)
      rfl
      (Reaches.setKeyState 3 true (clearKeyState (haltEngine 2)) _
        (Reaches.clearKeyState (haltEngine 2) Reaches.refl) rfl)).1⟩

/-! ## Conditional skips -/

/-- A second fetch that starts at most one byte before the end of memory halts the
engine and changes nothing but the program counter and the state. -/
theorem skip_at_end (s : Chip8ReferenceVm) (h1 : s.pc ≤ RAM_SIZE) (h2 : RAM_SIZE < s.pc + 2) :
    ∃ t, skip s = Except.ok t ∧ t.state = State.Halted ∧ t.v = s.v ∧ t.ram = s.ram ∧
      t.i = s.i ∧ t.display = s.display ∧ t.call_stack = s.call_stack := by
  unfold RAM_SIZE at h1 h2
  have h0 : ¬ (4096 < s.pc) := by omega
  by_cases hpc : s.pc = 4096
  · refine ⟨{ s with state := State.Halted }, ?_, rfl, rfl, rfl, rfl, rfl, rfl⟩
    simp [skip, getInstruction, RAM_SIZE, h0, hpc]
  · have hpc1 : s.pc + 1 = 4096 := by omega
    refine ⟨{ s with pc := s.pc + 1, state := State.Halted }, ?_, rfl, rfl, rfl, rfl, rfl, rfl⟩
    simp [skip, getInstruction, RAM_SIZE, h0, hpc, hpc1]

/-- The shape `if c then skip() else nothing`, run after a fetch inside memory, has
the three outcomes of `SkipsWhen`. -/
theorem skipsWhen_ite (c : Prop) [Decidable c] (s : Chip8ReferenceVm)
    (hpc : s.pc + 2 ≤ RAM_SIZE) :
    SkipsWhen c
      (if c then skip { s with pc := s.pc + 2 } else Except.ok { s with pc := s.pc + 2 }) s := by
  refine ⟨?_, ?_, ?_⟩
  · intro hc
    rw [if_neg hc]
  · intro hc h4
    rw [if_pos hc]
    exact skip_of_in_bounds { s with pc := s.pc + 2 } (by show s.pc + 2 + 2 ≤ RAM_SIZE; omega)
  · intro hc h4
    rw [if_pos hc]
    exact skip_at_end { s with pc := s.pc + 2 } hpc (by show RAM_SIZE < s.pc + 2 + 2; omega)

/-- C21, counterexample. The instruction `E09E` with `V0 = 16` and no key pressed: the
latch bit of key `16 mod 16 = 0` is clear, so the condition is false, yet the program
counter does not end at `A + 2`: the step fails with `std::out_of_range`. -/
theorem C21_conditional_skip_counterexample :
    NextInstruction keyInput (0xE0 + 0) 0x9E ∧ keyInput.v 0 = 16 ∧
    keyInput.keys (16 % 16) = false ∧
    observeAfter (fun s => s.pc) (step 0 keyInput) = none ∧
    faultAfter (step 0 keyInput) = some Fault.outOfRange := by
  refine ⟨⟨rfl, by decide, rfl, rfl⟩, rfl, rfl, ?_, ?_⟩
  · rfl
  · rfl

/-- C21, amended. For each conditional skip fetched at `A` with `A + 2 <= 4096`
(`3XNN`, `4XNN`, `5XY0`, `9XY0`, and `EX9E`, `EXA1` with `Vx` in 0..15): if its
condition is false the program counter ends at `A + 2`; if it is true and
`A + 4 <= 4096` the program counter ends at `A + 4` and nothing else has changed; if it
is true and `A + 4 > 4096` the engine ends `Halted`, registers, memory, display and
stack unchanged. -/
theorem C21_conditional_skip (rnd : Nat) (s : Chip8ReferenceVm) (x y nn : Nat)
    (hx : x < 16) (_hy : y < 16) :
    (NextInstruction s (0x30 + x) nn → SkipsWhen (s.v x = nn) (step rnd s) s) ∧
    (NextInstruction s (0x40 + x) nn → SkipsWhen (s.v x ≠ nn) (step rnd s) s) ∧
    (NextInstruction s (0x50 + x) (y * 16) → SkipsWhen (s.v x = s.v y) (step rnd s) s) ∧
    (NextInstruction s (0x90 + x) (y * 16) → SkipsWhen (s.v x ≠ s.v y) (step rnd s) s) ∧
    (NextInstruction s (0xE0 + x) 0x9E → s.v x < 16 →
      SkipsWhen (s.keys (s.v x) = true) (step rnd s) s) ∧
    (NextInstruction s (0xE0 + x) 0xA1 → s.v x < 16 →
      SkipsWhen (s.keys (s.v x) = false) (step rnd s) s) := by
  have hY : getShortValueHi (y * 16) = y := by rw [getShortValueHi_eq]; omega
  refine ⟨?_, ?_, ?_, ?_, ?_, ?_⟩
  · intro h
    have hfam : hi_nybble (0x30 + x) = 3 := by rw [hi_nybble_eq]; omega
    have hX : getShortValueLo (0x30 + x) = x := by rw [getShortValueLo_eq]; omega
    have e : step rnd s = if s.v x = nn then skip { s with pc := s.pc + 2 }
        else Except.ok { s with pc := s.pc + 2 } := by
      rw [step_of_next rnd s _ _ h]
      simp [execute, hfam, hX]
    rw [e]
    exact skipsWhen_ite _ s h.2.1
  · intro h
    have hfam : hi_nybble (0x40 + x) = 4 := by rw [hi_nybble_eq]; omega
    have hX : getShortValueLo (0x40 + x) = x := by rw [getShortValueLo_eq]; omega
    have e : step rnd s = if s.v x ≠ nn then skip { s with pc := s.pc + 2 }
        else Except.ok { s with pc := s.pc + 2 } := by
      rw [step_of_next rnd s _ _ h]
      simp [execute, hfam, hX]
    rw [e]
    exact skipsWhen_ite _ s h.2.1
  · intro h
    have hfam : hi_nybble (0x50 + x) = 5 := by rw [hi_nybble_eq]; omega
    have hX : getShortValueLo (0x50 + x) = x := by rw [getShortValueLo_eq]; omega
    have e : step rnd s = if s.v x = s.v y then skip { s with pc := s.pc + 2 }
        else Except.ok { s with pc := s.pc + 2 } := by
      rw [step_of_next rnd s _ _ h]
      simp [execute, hfam, hX, hY]
    rw [e]
    exact skipsWhen_ite _ s h.2.1
  · intro h
    have hfam : hi_nybble (0x90 + x) = 9 := by rw [hi_nybble_eq]; omega
    have hX : getShortValueLo (0x90 + x) = x := by rw [getShortValueLo_eq]; omega
    have e : step rnd s = if s.v x ≠ s.v y then skip { s with pc := s.pc + 2 }
        else Except.ok { s with pc := s.pc + 2 } := by
      rw [step_of_next rnd s _ _ h]
      simp [execute, hfam, hX, hY]
    rw [e]
    exact skipsWhen_ite _ s h.2.1
  · intro h hv
    have hfam : hi_nybble (0xE0 + x) = 14 := by rw [hi_nybble_eq]; omega
    have hX : getShortValueLo (0xE0 + x) = x := by rw [getShortValueLo_eq]; omega
    have e : step rnd s = if s.keys (s.v x) = true then skip { s with pc := s.pc + 2 }
        else Except.ok { s with pc := s.pc + 2 } := by
      rw [step_of_next rnd s _ _ h]
      simp only [execute, hfam, executeKey, hX, getValue, isKeyPressed, hv]
      by_cases hk : s.keys (s.v x) = true <;> simp [hk]
    rw [e]
    exact skipsWhen_ite _ s h.2.1
  · intro h hv
    have hfam : hi_nybble (0xE0 + x) = 14 := by rw [hi_nybble_eq]; omega
    have hX : getShortValueLo (0xE0 + x) = x := by rw [getShortValueLo_eq]; omega
    have e : step rnd s = if s.keys (s.v x) = false then skip { s with pc := s.pc + 2 }
        else Except.ok { s with pc := s.pc + 2 } := by
      rw [step_of_next rnd s _ _ h]
      simp only [execute, hfam, executeKey, hX, getValue, isKeyPressed, hv]
      by_cases hk : s.keys (s.v x) = true <;> simp [hk]
    rw [e]
    exact skipsWhen_ite _ s h.2.1

/-- C21, the amended statement for `3000` at address 4094 with `V0 = 0`: the condition
holds and the following instruction would start at the end of memory. -/
theorem C21_conditional_skip_witness :
    ∃ t, step 0 skipAtEndInput = Except.ok t ∧ t.state = State.Halted ∧
      t.v = skipAtEndInput.v ∧ t.ram = skipAtEndInput.ram ∧ t.i = skipAtEndInput.i ∧
      t.display = skipAtEndInput.display ∧ t.call_stack = skipAtEndInput.call_stack :=
  ((C21_conditional_skip 0 skipAtEndInput 0 0 0 (by decide) (by decide)).1
    ⟨rfl, by decide, rfl, rfl⟩).2.2 rfl (by decide)

/-! ## Instructions outside the table -/

/-- C22, evaluation of the code at a failing input. The words `5011` and `9011`
match no pattern of the table (the table has `5XY0` and `9XY0` only), yet with
`V0 = V1` the step on `5011`, and with `V0 ≠ V1` the step on `9011`, leave the program
counter at `0x204`, not at `0x202`: families 5 and 9 never look at the low nibble. -/
theorem C22_unknown_instruction_failing_input :
    NextInstruction fiveOneInput 0x50 0x11 ∧ fiveOneInput.pc = 0x200 ∧
    observeAfter (fun s => s.pc) (step 0 fiveOneInput) = some 0x204 ∧
    NextInstruction nineOneInput 0x90 0x11 ∧ nineOneInput.pc = 0x200 ∧
    observeAfter (fun s => s.pc) (step 0 nineOneInput) = some 0x204 := by
  refine ⟨⟨rfl, by decide, rfl, rfl⟩, rfl, ?_, ⟨rfl, by decide, rfl, rfl⟩, rfl, ?_⟩
  · decide
  · decide

/-- In the families that decode a sub-pattern (0, 8, E and F) every word outside the
table only moves the program counter by 2. -/
theorem unknown_instruction_noop (rnd : Nat) (s : Chip8ReferenceVm) (hi lo : Nat)
    (h : NextInstruction s hi lo) :
    (hi_nybble hi = 0x0 → getLongValue hi lo ≠ 0x0E0 → getLongValue hi lo ≠ 0x0EE →
      step rnd s = Except.ok { s with pc := s.pc + 2 }) ∧
    (hi_nybble hi = 0x8 → 0x8 ≤ lo_nybble lo → lo_nybble lo ≠ 0xE →
      step rnd s = Except.ok { s with pc := s.pc + 2 }) ∧
    (hi_nybble hi = 0xE → lo ≠ 0x9E → lo ≠ 0xA1 →
      step rnd s = Except.ok { s with pc := s.pc + 2 }) ∧
    (hi_nybble hi = 0xF → lo ≠ 0x07 → lo ≠ 0x0A → lo ≠ 0x15 → lo ≠ 0x18 → lo ≠ 0x1E →
      lo ≠ 0x29 → lo ≠ 0x33 → lo ≠ 0x55 → lo ≠ 0x65 →
      step rnd s = Except.ok { s with pc := s.pc + 2 }) := by
  rw [step_of_next rnd s _ _ h]
  refine ⟨?_, ?_, ?_, ?_⟩
  · intro hfam h1 h2
    unfold execute
    simp only [hfam, if_true]
    by_cases h0 : getLongValue hi lo = 0x000
    · rw [if_pos h0]
    · rw [if_neg h0, if_neg h1, if_neg h2]
  · intro hfam h1 h2
    have e : execute rnd { hi := hi, lo := lo } { s with pc := s.pc + 2 } =
        Except.ok (executeAlu { hi := hi, lo := lo } { s with pc := s.pc + 2 }) := by
      simp [execute, hfam]
    rw [e]
    unfold executeAlu
    have n0 : lo_nybble lo ≠ 0x0 := by omega
    have n1 : lo_nybble lo ≠ 0x1 := by omega
    have n2 : lo_nybble lo ≠ 0x2 := by omega
    have n3 : lo_nybble lo ≠ 0x3 := by omega
    have n4 : lo_nybble lo ≠ 0x4 := by omega
    have n5 : lo_nybble lo ≠ 0x5 := by omega
    have n6 : lo_nybble lo ≠ 0x6 := by omega
    have n7 : lo_nybble lo ≠ 0x7 := by omega
    simp only [if_neg n0, if_neg n1, if_neg n2, if_neg n3, if_neg n4, if_neg n5, if_neg n6,
      if_neg n7, if_neg h2]
  · intro hfam h1 h2
    have e : execute rnd { hi := hi, lo := lo } { s with pc := s.pc + 2 } =
        executeKey { hi := hi, lo := lo } { s with pc := s.pc + 2 } := by
      simp [execute, hfam]
    rw [e]
    unfold executeKey
    simp only [if_neg h1, if_neg h2]
  · intro hfam h1 h2 h3 h4 h5 h6 h7 h8 h9
    have e : execute rnd { hi := hi, lo := lo } { s with pc := s.pc + 2 } =
        executeMisc { hi := hi, lo := lo } { s with pc := s.pc + 2 } := by
      simp [execute, hfam]
    rw [e]
    unfold executeMisc
    simp only [if_neg h1, if_neg h2, if_neg h3, if_neg h4, if_neg h5, if_neg h6, if_neg h7,
      if_neg h8, if_neg h9]

/-! ## The address register -/

/-- C23, counterexample. The engine built from the 6-byte program `6001 AFFF F01E`
holds 4096 in the address register after three steps: `FX1E` adds `V0 = 1` to `0xFFF`
with no reduction. -/
theorem C23_address_register_counterexample :
    addressRom.length ≤ 3584 ∧
    construct (fun _ => 0) (fun _ => 0) addressRom = Except.ok addressEngine0 ∧
    step 0 addressEngine0 = Except.ok addressEngine1 ∧
    step 0 addressEngine1 = Except.ok addressEngine2 ∧
    step 0 addressEngine2 = Except.ok addressEngine3 ∧
    addressEngine3.i = 4096 ∧ ¬ (addressEngine3.i ≤ 4095) := by
  refine ⟨by decide, rfl, rfl, rfl, rfl, rfl, by decide⟩

/-- C23, amended. The address register is an offset that is never reduced modulo
4096: `ANNN` sets it to `NNN` and `FX29` to `0x50 + 5 * (Vx mod 16)`, both in
0..4095; `FX1E` sets it to `I + Vx`, and `FX55` and `FX65` (for `I + x + 1 <= 4096`)
set it to `I + x + 1`. -/
theorem C23_address_register (rnd : Nat) (s : Chip8ReferenceVm) (x nnn : Nat)
    (hx : x < 16) (hnnn : nnn < 4096) :
    (NextInstruction s (0xA0 + nnn / 256) (nnn % 256) →
      ∃ t, step rnd s = Except.ok t ∧ t.i = nnn ∧ t.i < 4096) ∧
    (NextInstruction s (0xF0 + x) 0x29 →
      ∃ t, step rnd s = Except.ok t ∧ t.i = 0x50 + 5 * (s.v x % 16) ∧ t.i < 4096) ∧
    (NextInstruction s (0xF0 + x) 0x1E →
      ∃ t, step rnd s = Except.ok t ∧ t.i = s.i + s.v x) ∧
    (NextInstruction s (0xF0 + x) 0x55 → s.i + x + 1 ≤ RAM_SIZE →
      ∃ t, step rnd s = Except.ok t ∧ t.i = s.i + x + 1) ∧
    (NextInstruction s (0xF0 + x) 0x65 → s.i + x + 1 ≤ RAM_SIZE →
      ∃ t, step rnd s = Except.ok t ∧ t.i = s.i + x + 1) := by
  have hX : getShortValueLo (0xF0 + x) = x := by rw [getShortValueLo_eq]; omega
  refine ⟨?_, ?_, ?_, ?_, ?_⟩
  · intro h
    have hfam : hi_nybble (0xA0 + nnn / 256) = 10 := by rw [hi_nybble_eq]; omega
    have hlong : getLongValue (0xA0 + nnn / 256) (nnn % 256) = nnn := by
      have hl := getLongValue_eq 10 (nnn / 256) (nnn % 256) (by omega) (by omega)
      have e : 10 * 16 + nnn / 256 = 0xA0 + nnn / 256 := by omega
      rw [e] at hl
      rw [hl]
      omega
    refine ⟨{ s with pc := s.pc + 2, i := nnn }, ?_, rfl, hnnn⟩
    rw [step_of_next rnd s _ _ h]
    simp [execute, hfam, hlong, setAddressRegister]
  · intro h
    have hand : s.v x &&& 0xF = s.v x % 16 := Nat.and_pow_two_sub_one_eq_mod (s.v x) 4
    refine ⟨{ s with pc := s.pc + 2, i := 0x50 + 5 * (s.v x % 16) }, ?_, rfl, ?_⟩
    · rw [step_misc rnd s x _ hx h]
      simp [executeMisc, hX, setAddressRegister, hand]
    · show 0x50 + 5 * (s.v x % 16) < 4096
      omega
  · intro h
    refine ⟨{ s with pc := s.pc + 2, i := s.i + s.v x }, ?_, rfl⟩
    rw [step_misc rnd s x _ hx h]
    simp [executeMisc, hX, incrementAddressRegister, getValue]
  · intro h hi
    have hnf : ¬ (RAM_SIZE < s.i + (x + 1)) := by omega
    refine ⟨{ s with
      pc := s.pc + 2, ram := copyCells s.v s.ram 0 s.i (x + 1), i := s.i + (x + 1) }, ?_, rfl⟩
    rw [step_misc rnd s x _ hx h]
    simp [executeMisc, hX, hnf, incrementAddressRegister]
  · intro h hi
    have hnf : ¬ (RAM_SIZE < s.i + (x + 1)) := by omega
    refine ⟨{ s with
      pc := s.pc + 2, i := s.i + (x + 1), v := copyCells s.ram s.v s.i 0 (x + 1) }, ?_, rfl⟩
    rw [step_misc rnd s x _ hx h]
    simp [executeMisc, hX, hnf, incrementAddressRegister]

/-- C23, the amended statement for `F01E` with `V0 = 200` and `I = 4000`. -/
theorem C23_address_register_witness :
    ∃ t, step 0 addToAddressInput = Except.ok t ∧ t.i = 4000 + 200 :=
  (C23_address_register 0 addToAddressInput 0 0 (by decide) (by decide)).2.2.1
    ⟨rfl, by decide, rfl, rfl⟩

/-! ## Display indices -/

theorem displayIndexPairs_length (col : Nat) :
    ∀ (n row : Nat), (displayIndexPairs col n row).length = n := by
  intro n
  induction n with
  | zero => intro row; rfl
  | succ n ih =>
    intro row
    simp only [displayIndexPairs, List.length_cons, ih]

/-- Iteration `k` of the loop works on row `(row + k) mod 32`. -/
theorem displayIndexPairs_get (col : Nat) :
    ∀ (n row k : Nat), k < n → row < 32 →
      (displayIndexPairs col n row)[k]? = some (displayIndices col ((row + k) % 32)) := by
  intro n
  induction n with
  | zero => intro row k hk; omega
  | succ n ih =>
    intro row k hk hrow
    cases k with
    | zero =>
      have e : (row + 0) % 32 = row := by omega
      rw [e]
      simp only [displayIndexPairs, List.getElem?_cons_zero]
    | succ k =>
      have e : ((row + 1) % 32 + k) % 32 = (row + (k + 1)) % 32 := by omega
      simp only [displayIndexPairs, DISPLAY_HEIGHT, List.getElem?_cons_succ]
      rw [ih ((row + 1) % 32) k (by omega) (by omega), e]

/-- Every index pair of the loop is the pair of some row below 32. -/
theorem displayIndexPairs_mem (col : Nat) :
    ∀ (n row : Nat), row < 32 → ∀ p ∈ displayIndexPairs col n row,
      ∃ r, r < 32 ∧ p = displayIndices col r := by
  intro n
  induction n with
  | zero =>
    intro row _ p hp
    simp [displayIndexPairs] at hp
  | succ n ih =>
    intro row hrow p hp
    simp only [displayIndexPairs, List.mem_cons] at hp
    rcases hp with hp | hp
    · exact ⟨row, hrow, hp⟩
    · exact ih ((row + 1) % DISPLAY_HEIGHT) (by unfold DISPLAY_HEIGHT; omega) p hp

/-- The display units whose index is in no pair of the loop get nothing XORed in. -/
theorem spriteMask_untouched (col sub : Nat) (sprite : List Nat) :
    ∀ (row j : Nat),
      (∀ p ∈ displayIndexPairs col sprite.length row, j ≠ p.1 % 256 ∧ j ≠ p.2 % 256) →
      spriteMask col sub sprite row j = 0 := by
  induction sprite with
  | nil => intro row j _; rfl
  | cons sd rest ih =>
    intro row j h
    have hhead := h (displayIndices col row) (by simp [displayIndexPairs])
    have htail : ∀ p ∈ displayIndexPairs col rest.length ((row + 1) % DISPLAY_HEIGHT),
        j ≠ p.1 % 256 ∧ j ≠ p.2 % 256 := by
      intro p hp
      exact h p (by simp only [List.length_cons, displayIndexPairs, List.mem_cons]; exact Or.inr hp)
    have h1 : ¬ (j = (row * DISPLAY_WIDTH_UNITS + col) % 256) := hhead.1
    have h2 : ¬ (j = (row * DISPLAY_WIDTH_UNITS + (col + 1) % DISPLAY_WIDTH_UNITS) % 256) :=
      hhead.2
    simp only [spriteMask, lineMask]
    rw [ih _ j htail, if_neg h1, if_neg h2]
    rfl

/-- C24. For every `x`, `y` in 0..255 and every height `n` in 0..15, `drawSprite`
computes `n` pairs of display indices, pair `k` being `row * 8 + col` and
`row * 8 + (col + 1) mod 8` with `row = (y mod 32 + k) mod 32` and
`col = (x mod 64) / 8`; every one of them is below 256, the size of the display, and
is unchanged by the conversion to the 8-bit index variable; the two of a pair are
distinct and lie in the same row; and a call that returns leaves every display unit
outside these indices as it was. -/
theorem C24_display_indices (x y n : Nat) (_hx : x < 256) (_hy : y < 256) (_hn : n ≤ 15) :
    (drawSpriteIndices x y n).length = n ∧
    (∀ k, k < n → (drawSpriteIndices x y n)[k]? =
      some (((y % 32 + k) % 32) * 8 + x % 64 / 8,
            ((y % 32 + k) % 32) * 8 + (x % 64 / 8 + 1) % 8)) ∧
    (∀ p ∈ drawSpriteIndices x y n,
      p.1 < DISPLAY_SIZE ∧ p.2 < DISPLAY_SIZE ∧ p.1 < 256 ∧ p.2 < 256 ∧
      p.1 % 2 ^ 8 = p.1 ∧ p.2 % 2 ^ 8 = p.2 ∧ p.1 ≠ p.2 ∧
      p.1 / DISPLAY_WIDTH_UNITS = p.2 / DISPLAY_WIDTH_UNITS) ∧
    (∀ s s' j, drawSprite s x y n = Except.ok s' →
      (∀ p ∈ drawSpriteIndices x y n, j ≠ p.1 ∧ j ≠ p.2) → s'.display j = s.display j) := by
  have hcol : x % 64 / 8 < 8 := by omega
  have hrow : y % 32 < 32 := by omega
  have hmem : ∀ p ∈ drawSpriteIndices x y n,
      p.1 < 256 ∧ p.2 < 256 ∧ p.1 ≠ p.2 ∧ p.1 / 8 = p.2 / 8 := by
    intro p hp
    obtain ⟨r, hr, rfl⟩ := displayIndexPairs_mem (x % DISPLAY_WIDTH / 8) n
      (y % DISPLAY_HEIGHT) hrow p hp
    simp only [displayIndices, DISPLAY_WIDTH_UNITS, DISPLAY_WIDTH, Nat.reduceDiv]
    omega
  refine ⟨displayIndexPairs_length _ n _, ?_, ?_, ?_⟩
  · intro k hk
    exact displayIndexPairs_get (x % DISPLAY_WIDTH / 8) n (y % DISPLAY_HEIGHT) k hk hrow
  · intro p hp
    obtain ⟨h1, h2, h3, h4⟩ := hmem p hp
    have e1 : p.1 % 2 ^ 8 = p.1 := Nat.mod_eq_of_lt h1
    have e2 : p.2 % 2 ^ 8 = p.2 := Nat.mod_eq_of_lt h2
    exact ⟨h1, h2, h1, h2, e1, e2, h3, h4⟩
  · intro s s' j hdraw hj
    by_cases hc : n ≠ 0 ∧ RAM_SIZE < s.i + n
    · have hf : drawSprite s x y n = Except.error Fault.badAccess := by
        unfold drawSprite
        exact if_pos hc
      rw [hf] at hdraw
      cases hdraw
    · have hok : drawSprite s x y n = Except.ok
          (drawSpriteLines (x % DISPLAY_WIDTH / 8) (x % DISPLAY_WIDTH % 8)
            (spriteData { s with v := Function.update s.v 0xF 0 } n) (y % DISPLAY_HEIGHT)
            { s with v := Function.update s.v 0xF 0 }) := by
        unfold drawSprite
        exact if_neg hc
      rw [hok] at hdraw
      cases hdraw
      rw [drawSpriteLines_display]
      have hz : spriteMask (x % DISPLAY_WIDTH / 8) (x % DISPLAY_WIDTH % 8)
          (spriteData { s with v := Function.update s.v 0xF 0 } n) (y % DISPLAY_HEIGHT) j = 0 := by
        apply spriteMask_untouched
        rw [spriteData_length]
        intro p hp
        obtain ⟨h1, h2, -, -⟩ := hmem p hp
        rw [Nat.mod_eq_of_lt h1, Nat.mod_eq_of_lt h2]
        exact hj p hp
      rw [hz, Nat.xor_zero]

/-- C24 for a 3-line sprite at `(61, 31)`, which wraps both ways. -/
theorem C24_display_indices_witness :
    drawSpriteIndices 61 31 3 = [(255, 248), (7, 0), (15, 8)] ∧
    (∀ p ∈ drawSpriteIndices 61 31 3,
      p.1 < DISPLAY_SIZE ∧ p.2 < DISPLAY_SIZE ∧ p.1 < 256 ∧ p.2 < 256 ∧
      p.1 % 2 ^ 8 = p.1 ∧ p.2 % 2 ^ 8 = p.2 ∧ p.1 ≠ p.2 ∧
      p.1 / DISPLAY_WIDTH_UNITS = p.2 / DISPLAY_WIDTH_UNITS) :=
  ⟨by decide, (C24_display_indices 61 31 3 (by decide) (by decide) (by decide)).2.2.1⟩

end Chip8
